import Mathlib

/-!
Verification of the subgraph-occurrence discovery and clustering engine of
pyemap (`pyemap/graph_mining/frequent_subgraph.py`) against its
natural-language specification.

The Python module is shallowly embedded below.  Conventions:

* Pattern-graph nodes are `Nat`, host-graph (protein) nodes are `String`
  (residue identifiers).
* Floating point quantities (coordinates, edge weights, RMSD values) are
  modelled as `ℚ`; `float("inf")` is modelled as `⊤` in `WithTop ℚ`.
* Python `dict`s are modelled as association lists (`List (key × value)`),
  whose update keeps the position of an existing key and appends a new one,
  like CPython dicts do.
* Fallible Python code (raising exceptions) is modelled with `Except`;
  `PyErr` distinguishes `AttributeError` from a generic `Exception`.
* External collaborators that are not part of this repository are passed in
  as function parameters: the networkx graph matcher's monomorphism /
  isomorphism enumerations (`monosF`, `iso`), the `Bio.SVDSuperimposer`
  least-squares superposition (`si`), and `write_graph_smiles` from the
  (absent) utils module (`smilesF`).
* `networkx.Graph` does not define `__eq__`, so `==` on graphs is Python
  object identity; each `SubgraphPattern.__init__` stores a fresh `G.copy()`.
  The object identity of the stored graph is modelled by the `gObjId` field.
-/

namespace PyEMap

/-- A 3-D coordinate (`atom.coord` in Biopython), modelled over `ℚ`. -/
abbrev Coord := ℚ × ℚ × ℚ

/-- Residue metadata supplied by the `emap` collaborator: the residue
sequence number (`full_id[3][1]`), the aligned residue number
(`aligned_residue_number`, `none` modelling the sentinel string `"X"`),
and the residue's atoms in iteration order, keyed by atom name. -/
structure ResidueInfo where
  resnum : ℤ
  alignedResnum : Option ℤ
  atoms : List (String × Coord)

/-- The pattern graph `self.G` of a `SubgraphPattern`: node list, edge list,
the per-edge numeric label (`num_label`, used by `G.size(weight="num_label")`)
and the per-node label string. -/
structure PatternG where
  nodes : List Nat
  edges : List (Nat × Nat)
  edgeNumLabel : Nat → Nat → ℚ
  nodeLabel : Nat → String

/-- A protein graph (`emap.init_graph`): node attributes `shape` and
`num_label`, the undirected edge set, the per-edge `weight` attribute
(symmetric in its two endpoints, like the networkx edge-attribute dict),
and the owning PDB id (`graph['pdb_id']`). -/
structure HostG where
  nodes : List String
  nodeShape : String → String
  nodeNumLabel : String → ℚ
  edges : List (String × String)
  edgeWeight : String → String → ℚ
  pdbId : String

/-- The parts of a `pyemap.emap` object this module reads: the protein graph
and the residue metadata map. -/
structure EmapObj where
  initGraph : HostG
  residues : String → ResidueInfo

/-- A protein subgraph (occurrence) as built by
`_generate_protein_subgraph`: nodes in insertion order (sorted by residue
number), the relabeled pattern edges, the copied node/edge attributes, the
owning PDB id and the occurrence id `graph['id']` (modelled as the pair
(pdb id, rank); the source concatenates them as `pdb_id + "_" + str(rank)`). -/
structure Occ where
  nodes : List String
  edges : List (String × String)
  pdbId : String
  gid : String × Nat
  label : String → String
  shape : String → String
  numLabel : String → ℚ
  alignedResnum : String → Option ℤ
  resnum : String → ℤ
  weightOf : String → String → ℚ

instance : Inhabited Occ :=
  ⟨⟨[], [], "", ("", 0), fun _ => "", fun _ => "", fun _ => 0, fun _ => none,
    fun _ => 0, fun _ _ => 0⟩⟩

/-- Stable insertion into a sorted list: `x` goes in front of the first
element it satisfies `le` with. -/
def insertLe {α : Type} (le : α → α → Bool) (x : α) : List α → List α
  | [] => [x]
  | y :: ys => if le x y then x :: y :: ys else y :: insertLe le x ys

/-- Stable insertion sort.  Python's `sorted`/`list.sort` are stable, and for
a total preorder a stable sort's output is uniquely determined, so this
models them exactly. -/
def sortLe {α : Type} (le : α → α → Bool) (l : List α) : List α :=
  l.foldr (insertLe le) []

/-- `numpy.min` over a Python list: the minimum, or `none` for the empty list
(where `np.min` raises "zero-size array to reduction operation minimum which
has no identity"). -/
def npMin {α : Type} [LinearOrder α] : List α → Option α
  | [] => none
  | x :: xs => some (xs.foldl min x)

/-- `dict((v, k) for k, v in mapping.items())`: inverts a host→pattern node
mapping into pattern→host; on duplicate pattern nodes the last entry wins,
as in a Python dict comprehension. -/
def invLookup (m : List (String × Nat)) (p : Nat) : String :=
  (((m.reverse.find? (fun kv => kv.2 == p)).map (fun kv => kv.1)).getD "")

/-- `_generate_protein_subgraph(self, mapping, protein_graph, G, emap_obj)`:
relabels a copy of the pattern graph `P` along the inverted mapping, then
rebuilds it as `sorted_graph` with nodes inserted in ascending residue-number
order and all node/edge attributes copied from the host graph and the emap
residue metadata.  The edges are exactly the relabeled pattern edges; the
host graph is consulted only for attribute values. -/
def generateProteinSubgraph (mapping : List (String × Nat)) (hostG : HostG)
    (P : PatternG) (res : String → ResidueInfo) : Occ :=
  let inv := invLookup mapping
  let relabeledNodes := P.nodes.map inv
  let relabeledEdges := P.edges.map (fun e => (inv e.1, inv e.2))
  { nodes := sortLe (fun a b => decide ((res a).resnum ≤ (res b).resnum)) relabeledNodes
    edges := relabeledEdges
    pdbId := hostG.pdbId
    gid := ("", 0)
    label := fun n => n
    shape := hostG.nodeShape
    numLabel := hostG.nodeNumLabel
    alignedResnum := fun n => (res n).alignedResnum
    resnum := fun n => (res n).resnum
    weightOf := hostG.edgeWeight }

/-- Degree of a node in an occurrence graph (`sg.degree`): number of incident
edge endpoints. -/
def degOf (g : Occ) (n : String) : Nat :=
  (g.edges.filter (fun e => e.1 == n)).length +
    (g.edges.filter (fun e => e.2 == n)).length

/-- `dict(sg.degree)`: the node→degree mapping, keys in graph node order. -/
def degreeDict (g : Occ) : List (String × Nat) :=
  g.nodes.map (fun n => (n, degOf g n))

/-- Python `dict` equality (`==`): same key set with equal values. -/
def dictEq (d1 d2 : List (String × Nat)) : Bool :=
  d1.all (fun kv => d2.lookup kv.1 == some kv.2) &&
    d2.all (fun kv => d1.lookup kv.1 == some kv.2)

/-- The loop of `_find_subgraph_in_pdb`: for each monomorphism build the
protein subgraph, and keep it only if its degree dict has not been seen yet
in this host (`if degree_dict not in degree_dicts`). -/
def dedupLoop (P : PatternG) (emap : EmapObj) :
    List (List (String × Nat)) → List Occ → List (List (String × Nat)) → List Occ
  | [], sgs, _ => sgs
  | m :: rest, sgs, dds =>
    let sg := generateProteinSubgraph m emap.initGraph P emap.residues
    let dd := degreeDict sg
    if dds.any (fun d => dictEq d dd) then dedupLoop P emap rest sgs dds
    else dedupLoop P emap rest (sgs ++ [sg]) (dds ++ [dd])

/-- `_find_subgraph_in_pdb(self, pdb_id)`: enumerate the monomorphisms of the
pattern in the host (the enumeration itself is the external networkx matcher,
passed in as `monos`), build the protein subgraphs, and drop the ones whose
degree dict repeats an earlier one.  The source finally stores
`self.total_support[pdb_id] = len(sgs)` where `sgs` is the returned
(deduplicated) list. -/
def findSubgraphInPdb (P : PatternG) (emap : EmapObj)
    (monos : List (List (String × Nat))) : List Occ :=
  dedupLoop P emap monos [] []

/-- `_subgraph_seq_dist(self, sg1, sg2, mapping)`: sum of
`|aligned_resnum(key) - aligned_resnum(val)|` over the mapping, skipping
pairs whose `sg1` node is unaligned (`"X"`).  If `sg1`'s node is aligned but
`sg2`'s is the `"X"` sentinel the subtraction is a Python `TypeError`,
modelled as `none`. -/
def seqDistLoop (sg1 sg2 : Occ) : List (String × String) → ℤ → Option ℤ
  | [], acc => some acc
  | (k, v) :: rest, acc =>
    match sg1.alignedResnum k with
    | none => seqDistLoop sg1 sg2 rest acc
    | some a1 =>
      match sg2.alignedResnum v with
      | none => none
      | some a2 => seqDistLoop sg1 sg2 rest (acc + |a1 - a2|)

/-- `_subgraph_seq_dist` run from `total_dist = 0`. -/
def subgraphSeqDist (sg1 sg2 : Occ) (m : List (String × String)) : Option ℤ :=
  seqDistLoop sg1 sg2 m 0

/-- `'CA' in res`: the residue has an atom with the given name. -/
def hasAtom (r : ResidueInfo) (name : String) : Bool :=
  r.atoms.any (fun a => a.1 == name)

/-- `res[name].coord`: coordinate of the named atom (junk default; callers
only use it after `hasAtom` succeeded). -/
def atomCoord (r : ResidueInfo) (name : String) : Coord :=
  ((r.atoms.find? (fun a => a.1 == name)).map (fun a => a.2)).getD (0, 0, 0)

/-- The `for atm in res1: if atm.id in res2` search: the first atom name of
`res1` that `res2` also has. -/
def sharedAtomId (r1 r2 : ResidueInfo) : Option String :=
  (r1.atoms.find? (fun a => hasAtom r2 a.1)).map (fun a => a.1)

/-- The mapping loop of `_subgraph_rmsd`, accumulating the two coordinate
lists; returns `⊤` (`float("inf")`) as soon as a matched residue pair has no
shared atom.  After the loop, with at least 2 coordinate pairs the external
`SVDSuperimposer` (`si`) is run; otherwise the result is `⊤`. -/
def rmsdLoop (si : List Coord → List Coord → ℚ) (emap1 emap2 : EmapObj) :
    List (String × String) → List Coord → List Coord → WithTop ℚ
  | [], atoms1, atoms2 =>
    if 2 ≤ atoms1.length ∧ atoms1.length = atoms2.length then
      ((si atoms1 atoms2 : ℚ) : WithTop ℚ)
    else ⊤
  | (k, v) :: rest, atoms1, atoms2 =>
    let res1 := emap1.residues k
    let res2 := emap2.residues v
    if hasAtom res1 "CA" ∧ hasAtom res2 "CA" then
      rmsdLoop si emap1 emap2 rest (atoms1 ++ [atomCoord res1 "CA"])
        (atoms2 ++ [atomCoord res2 "CA"])
    else
      match sharedAtomId res1 res2 with
      | some sid =>
        rmsdLoop si emap1 emap2 rest (atoms1 ++ [atomCoord res1 sid])
          (atoms2 ++ [atomCoord res2 sid])
      | none => ⊤

/-- `_subgraph_rmsd(self, sg1, sg2, mapping)` started from empty atom lists;
`emap1`/`emap2` are `self.support[sg1.graph['pdb_id']]` and
`self.support[sg2.graph['pdb_id']]`. -/
def subgraphRmsd (si : List Coord → List Coord → ℚ) (emap1 emap2 : EmapObj)
    (m : List (String × String)) : WithTop ℚ :=
  rmsdLoop si emap1 emap2 m [] []

/-- The structural-similarity threshold `0.5` of `_do_clustering`. -/
def structThresh : WithTop ℚ := ((mkRat 1 2 : ℚ) : WithTop ℚ)

/-- `np.min(seq_dists)` for a pair: the mappings' sequence distances
(well-defined ones) reduced by minimum. -/
def minSeqDist (sg1 sg2 : Occ) (ms : List (List (String × String))) : Option ℤ :=
  npMin (ms.filterMap (subgraphSeqDist sg1 sg2))

/-- `np.min(rmsds)` for a pair. -/
def minRmsd (si : List Coord → List Coord → ℚ) (emap1 emap2 : EmapObj)
    (ms : List (List (String × String))) : Option (WithTop ℚ) :=
  npMin (ms.map (subgraphRmsd si emap1 emap2))

/-- One iteration of the pairwise loop of `_do_clustering` for the pair
`p = (i, j)`: enumerate the isomorphisms between the two occurrence graphs
(`iso`, the external `GM.subgraph_isomorphisms_iter`), compute all sequence
distances and RMSDs, reduce by `np.min`, and extend the accumulated edge
lists of `G_seq` and `G_struct` by the thresholded decisions
(`seq_dist < num_nodes`, `rmsd <= 0.5`).  A `TypeError` inside
`_subgraph_seq_dist` aborts the computation; so does `np.min` of an empty
array (zero isomorphisms). -/
def pairStep (iso : Occ → Occ → List (List (String × String)))
    (si : List Coord → List Coord → ℚ) (supportF : String → EmapObj)
    (graphs : List Occ) (numNodes : Nat)
    (acc : List (Nat × Nat) × List (Nat × Nat)) (p : Nat × Nat) :
    Except String (List (Nat × Nat) × List (Nat × Nat)) :=
  let gi := graphs.getD p.1 default
  let gj := graphs.getD p.2 default
  let ms := iso gi gj
  if ms.any (fun m => (subgraphSeqDist gi gj m).isNone) then
    Except.error "TypeError: unsupported operand type for int and str"
  else
    match minSeqDist gi gj ms, minRmsd si (supportF gi.pdbId) (supportF gj.pdbId) ms with
    | some sd, some rd =>
      Except.ok
        (if sd < (numNodes : ℤ) then acc.1 ++ [p] else acc.1,
         if rd ≤ structThresh then acc.2 ++ [p] else acc.2)
    | _, _ =>
      Except.error "zero-size array to reduction operation minimum which has no identity"

/-- The sequence-similarity edge decision of `_do_clustering` for a pair of
occurrence graphs: minimum sequence distance strictly below the pattern node
count. -/
def seqEdgeCond (gi gj : Occ) (ms : List (List (String × String))) (numNodes : Nat) : Bool :=
  match minSeqDist gi gj ms with
  | some sd => decide (sd < (numNodes : ℤ))
  | none => false

/-- The structural-similarity edge decision of `_do_clustering` for a pair
of occurrence graphs: minimum RMSD at most `0.5`. -/
def structEdgeCond (si : List Coord → List Coord → ℚ) (supportF : String → EmapObj)
    (gi gj : Occ) (ms : List (List (String × String))) : Bool :=
  match minRmsd si (supportF gi.pdbId) (supportF gj.pdbId) ms with
  | some rd => decide (rd ≤ structThresh)
  | none => false

/-- The double loop `for i in range(0, num_graphs): for j in range(i + 1,
num_graphs)` as a pair list. -/
def pairList (n : Nat) : List (Nat × Nat) :=
  (List.range n).flatMap (fun i => (List.range' (i + 1) (n - (i + 1))).map (fun j => (i, j)))

/-- Runs `pairStep` over a pair list, propagating the first exception. -/
def edgesLoop (iso : Occ → Occ → List (List (String × String)))
    (si : List Coord → List Coord → ℚ) (supportF : String → EmapObj)
    (graphs : List Occ) (numNodes : Nat) :
    List (Nat × Nat) → List (Nat × Nat) × List (Nat × Nat) →
    Except String (List (Nat × Nat) × List (Nat × Nat))
  | [], acc => Except.ok acc
  | p :: ps, acc =>
    match pairStep iso si supportF graphs numNodes acc p with
    | Except.error e => Except.error e
    | Except.ok acc2 => edgesLoop iso si supportF graphs numNodes ps acc2

/-- The edge-building phase of `_do_clustering`: the edge lists of `G_seq`
and `G_struct` over the node set `0 .. num_graphs - 1`. -/
def clusterEdges (iso : Occ → Occ → List (List (String × String)))
    (si : List Coord → List Coord → ℚ) (supportF : String → EmapObj)
    (graphs : List Occ) (numNodes : Nat) :
    Except String (List (Nat × Nat) × List (Nat × Nat)) :=
  edgesLoop iso si supportF graphs numNodes (pairList graphs.length) ([], [])

/-- Finds (and removes) the component containing `x`, keeping the positions
of the remaining components. -/
def extractComp (x : Nat) : List (List Nat) → Option (List Nat × List (List Nat))
  | [] => none
  | c :: cs =>
    if x ∈ c then some (c, cs)
    else
      match extractComp x cs with
      | some (cb, cs2) => some (cb, c :: cs2)
      | none => none

/-- Merges the components containing `a` and `b` (union-find step); adding an
edge inside one component, or touching an unknown node, changes nothing. -/
def addEdgeComps (comps : List (List Nat)) (a b : Nat) : List (List Nat) :=
  match extractComp a comps with
  | none => comps
  | some (ca, rest) =>
    if b ∈ ca then comps
    else
      match extractComp b rest with
      | none => comps
      | some (cb, rest2) => (ca ++ cb) :: rest2

/-- `nx.connected_components` of the graph on nodes `0 .. n-1` with the given
edge list, modelled by folding a union-find merge over the edges starting
from singletons.  (The external networkx routine yields the same components
as sets; only the emission order, which no claim depends on, differs.) -/
def componentsOf (n : Nat) (edges : List (Nat × Nat)) : List (List Nat) :=
  edges.foldl (fun cs e => addEdgeComps cs e.1 e.2) ((List.range n).map (fun x => [x]))

/-- `sorted(cc, key=len, reverse=True)`: stable sort by descending length. -/
def sortComps (cs : List (List Nat)) : List (List Nat) :=
  sortLe (fun c d => decide (d.length ≤ c.length)) cs

/-- `_gen_groups(cc, all_graphs)`: group `k+1` is the list of occurrence ids
of the graphs whose pool index lies in the `k`-th component.  The source
returns the dict `{1: ids, 2: ids, ...}`; it is modelled as the list of the
dict's values in key order. -/
def genGroups (cc : List (List Nat)) (allGraphs : List Occ) : List (List (String × Nat)) :=
  cc.map (fun c => c.map (fun idx => (allGraphs.getD idx default).gid))

/-- `_do_clustering(self, all_graphs)`: build the two similarity graphs,
extract their connected components sorted by descending size, and return
`(self._structural_groups, self._sequence_groups)`. -/
def doClustering (iso : Occ → Occ → List (List (String × String)))
    (si : List Coord → List Coord → ℚ) (supportF : String → EmapObj)
    (graphs : List Occ) :
    Except String (List (List (String × Nat)) × List (List (String × Nat))) :=
  let numNodes := (graphs.getD 0 default).nodes.length
  match clusterEdges iso si supportF graphs numNodes with
  | Except.error e => Except.error e
  | Except.ok (seqE, structE) =>
    Except.ok
      (genGroups (sortComps (componentsOf graphs.length structE)) graphs,
       genGroups (sortComps (componentsOf graphs.length seqE)) graphs)

/-- A Python exception: `AttributeError` (reading a missing attribute) or a
generic `Exception` with its message. -/
inductive PyErr
  | attributeError (msg : String)
  | exception (msg : String)
deriving DecidableEq

/-- The mutable aggregate state of a `SubgraphPattern` (the attributes its
methods read and write).  Attributes that `__init__` does not create —
`_structural_groups`, `_sequence_groups`, `clustering_option` — are `Option`s
whose `none` models the absent attribute. -/
structure SPState where
  G : PatternG
  gObjId : Nat
  pid : String
  fileId : String
  supportIds : List String
  supportNumber : Nat
  totalSupport : List (String × Nat)
  proteinSubgraphs : List ((String × Nat) × Occ)
  groups : List (List (String × Nat))
  structuralGroups : Option (List (List (String × Nat)))
  sequenceGroups : Option (List (List (String × Nat)))
  clusteringOption : Option String

instance : Inhabited SPState :=
  ⟨⟨⟨[], [], fun _ _ => 0, fun _ => ""⟩, 0, "", "", [], 0, [], [], [], none, none, none⟩⟩

/-- The node-label normalization loop at the end of `__init__`: every node
label `"#"` becomes `"NP"`. -/
def normalizeLabels (G : PatternG) : PatternG :=
  { G with nodeLabel := fun v => if G.nodeLabel v = "#" then "NP" else G.nodeLabel v }

/-- `SubgraphPattern.__init__(self, G, graph_number, support, ...)`.
`smilesF` is the external `write_graph_smiles`; `gObjId` is the object
identity of the fresh `G.copy()` this instance stores.  The id string is
computed from the original labels, then the stored graph's labels are
normalized. -/
def initSPState (G : PatternG) (gObjId : Nat) (graphNumber : Nat)
    (support : List String) (smilesF : PatternG → String) : SPState :=
  let pid := toString (graphNumber + 1) ++ "_" ++ smilesF G ++ "_" ++ toString support.length
  { G := normalizeLabels G
    gObjId := gObjId
    pid := pid
    fileId := pid.replace "#" "NP"
    supportIds := support
    supportNumber := support.length
    totalSupport := []
    proteinSubgraphs := []
    groups := []
    structuralGroups := none
    sequenceGroups := none
    clusteringOption := none }

/-- `set_clustering(self, clustering_option)`: on `"structural"` or
`"sequence"` point `self.groups` at the corresponding precomputed grouping
(an `AttributeError` if it was never computed) and record the option;
otherwise raise `Exception("Either structural or sequence.")`. -/
def setClustering (st : SPState) (clusteringOption : String) : Except PyErr SPState :=
  if clusteringOption = "structural" then
    match st.structuralGroups with
    | none => Except.error (PyErr.attributeError
        "SubgraphPattern object has no attribute _structural_groups")
    | some g => Except.ok { st with groups := g, clusteringOption := some clusteringOption }
  else if clusteringOption = "sequence" then
    match st.sequenceGroups with
    | none => Except.error (PyErr.attributeError
        "SubgraphPattern object has no attribute _sequence_groups")
    | some g => Except.ok { st with groups := g, clusteringOption := some clusteringOption }
  else Except.error (PyErr.exception "Either structural or sequence.")

/-- `G.size(weight="weight")` on an occurrence graph: total edge weight. -/
def sizeWeight (g : Occ) : ℚ :=
  (g.edges.map (fun e => g.weightOf e.1 e.2)).sum

/-- Python dict update `d[k] = v`: overwrite in place, or append a new key. -/
def updateAssoc (l : List (String × Nat)) (k : String) (v : Nat) : List (String × Nat) :=
  if l.any (fun p => p.1 == k) then l.map (fun p => if p.1 == k then (k, v) else p)
  else l ++ [(k, v)]

/-- `for i, graph in enumerate(all_graphs): graph.graph['id'] = pdb_id_(i+1)`:
assigns the occurrence ids in pool order, starting at rank `k + 1`. -/
def assignIds : Nat → List Occ → List Occ
  | _, [] => []
  | k, g :: gs => { g with gid := (g.pdbId, k + 1) } :: assignIds (k + 1) gs

/-- The occurrence pool of `find_protein_subgraphs`: the per-host
deduplicated occurrence lists concatenated over `self.support`
(`monosF` is the external monomorphism enumeration per host). -/
def poolOf (P : PatternG) (supportF : String → EmapObj)
    (monosF : String → List (List (String × Nat))) (supportIds : List String) : List Occ :=
  supportIds.foldl (fun acc h => acc ++ findSubgraphInPdb P (supportF h) (monosF h)) []

/-- The `total_support` dict after the per-host loop: each host's entry is
set to the length of its deduplicated occurrence list. -/
def tsOf (P : PatternG) (supportF : String → EmapObj)
    (monosF : String → List (List (String × Nat))) (ts0 : List (String × Nat))
    (supportIds : List String) : List (String × Nat) :=
  supportIds.foldl
    (fun ts h => updateAssoc ts h (findSubgraphInPdb P (supportF h) (monosF h)).length) ts0

/-- The pool sorted ascending by total edge weight
(`all_graphs.sort(key=lambda x: x.size(weight="weight"))`). -/
def sortedPoolOf (P : PatternG) (supportF : String → EmapObj)
    (monosF : String → List (List (String × Nat))) (supportIds : List String) : List Occ :=
  sortLe (fun a b => decide (sizeWeight a ≤ sizeWeight b)) (poolOf P supportF monosF supportIds)

/-- The sorted pool with occurrence ids assigned. -/
def withIdsOf (P : PatternG) (supportF : String → EmapObj)
    (monosF : String → List (List (String × Nat))) (supportIds : List String) : List Occ :=
  assignIds 0 (sortedPoolOf P supportF monosF supportIds)

/-- `find_protein_subgraphs(self, clustering_option)`: reset `groups` and
`protein_subgraphs`, collect and deduplicate the occurrences of every
supporting host (recording `total_support`), sort them by total edge weight,
assign ids, and either run `_do_clustering` followed by `set_clustering`
(more than one occurrence) or install the single all-occurrence group as
both clusterings. -/
def findProteinSubgraphs (iso : Occ → Occ → List (List (String × String)))
    (si : List Coord → List Coord → ℚ) (supportF : String → EmapObj)
    (monosF : String → List (List (String × Nat))) (st : SPState)
    (clusteringOption : String) : Except PyErr SPState :=
  let wI := withIdsOf st.G supportF monosF st.supportIds
  let st2 := { st with
    groups := []
    totalSupport := tsOf st.G supportF monosF st.totalSupport st.supportIds
    proteinSubgraphs := wI.map (fun (g : Occ) => (g.gid, g)) }
  if 1 < wI.length then
    match doClustering iso si supportF wI with
    | Except.error e => Except.error (PyErr.exception e)
    | Except.ok (sg, qg) =>
      setClustering { st2 with structuralGroups := some sg, sequenceGroups := some qg }
        clusteringOption
  else
    let grp := [wI.map (fun g => g.gid)]
    Except.ok { st2 with
      groups := grp
      clusteringOption := some clusteringOption
      structuralGroups := some grp
      sequenceGroups := some grp }

/-- `G.size(weight="num_label")`: total `num_label` edge weight of the
pattern graph, the final tie-break key of `SubgraphPattern.__lt__`. -/
def sizeNumLabel (G : PatternG) : ℚ :=
  (G.edges.map (fun e => G.edgeNumLabel e.1 e.2)).sum

/-- `SubgraphPattern.__lt__`: compare support number, then the canonical
smiles string of the graphs, then the `num_label`-weighted size. -/
def spLtB (smilesF : PatternG → String) (a b : SPState) : Bool :=
  if a.supportNumber ≠ b.supportNumber then decide (a.supportNumber < b.supportNumber)
  else if smilesF a.G ≠ smilesF b.G then decide (smilesF a.G < smilesF b.G)
  else decide (sizeNumLabel a.G < sizeNumLabel b.G)

/-- `SubgraphPattern.__eq__`: `self.G == other.G`; `networkx.Graph` does not
override `==`, so this is object identity of the stored graph copies. -/
def spEqB (a b : SPState) : Bool := a.gObjId == b.gObjId

/-! ### Concrete fixtures used by witnesses and counterexamples -/

/-- A two-node one-edge pattern graph (labels "W"). -/
def patP : PatternG := ⟨[0, 1], [(0, 1)], fun _ _ => 1, fun _ => "W"⟩

/-- A two-node edgeless pattern graph. -/
def patE : PatternG := ⟨[0, 1], [], fun _ _ => 1, fun _ => "W"⟩

/-- Host structure `"A"`: nodes `a`, `b` joined by an edge. -/
def hostA : HostG := ⟨["a", "b"], fun _ => "box", fun _ => 3, [("a", "b")], fun _ _ => 1, "A"⟩

/-- Residue metadata for host `"A"`: both residues aligned, with an
alpha-carbon each. -/
def residuesA : String → ResidueInfo := fun n =>
  if n = "a" then ⟨1, some 1, [("CA", (0, 0, 0))]⟩
  else if n = "b" then ⟨2, some 2, [("CA", (1, 0, 0))]⟩
  else ⟨0, none, []⟩

/-- The emap collaborator for host `"A"`. -/
def emapA : EmapObj := ⟨hostA, residuesA⟩

/-- Host structure `"B"`: nodes `c`, `d` joined by an edge. -/
def hostB : HostG := ⟨["c", "d"], fun _ => "box", fun _ => 3, [("c", "d")], fun _ _ => 1, "B"⟩

/-- Residue metadata for host `"B"`, geometrically identical to `"A"`. -/
def residuesB : String → ResidueInfo := fun n =>
  if n = "c" then ⟨1, some 1, [("CA", (0, 0, 0))]⟩
  else if n = "d" then ⟨2, some 2, [("CA", (1, 0, 0))]⟩
  else ⟨0, none, []⟩

/-- The emap collaborator for host `"B"`. -/
def emapB : EmapObj := ⟨hostB, residuesB⟩

/-- The support map over hosts `"A"` and `"B"`. -/
def supAB : String → EmapObj := fun p => if p = "B" then emapB else emapA

/-- One monomorphism of the pattern into each host. -/
def monosAB : String → List (List (String × Nat)) := fun p =>
  if p = "B" then [[("c", 0), ("d", 1)]] else [[("a", 0), ("b", 1)]]

/-- Both monomorphisms of the symmetric pattern into host `"A"` (they map
onto the same node set, so they are deduplicated to one occurrence). -/
def monosTwo : String → List (List (String × Nat)) := fun _ =>
  [[("a", 0), ("b", 1)], [("a", 1), ("b", 0)]]

/-- An isomorphism enumeration giving the single node correspondence between
the `"A"` occurrence and the `"B"` occurrence. -/
def isoAB : Occ → Occ → List (List (String × String)) := fun _ _ =>
  [[("a", "c"), ("b", "d")]]

/-- A superimposer stub reporting a perfect superposition. -/
def siZero : List Coord → List Coord → ℚ := fun _ _ => 0

/-- The coordinate contributed by `res1` for a matched residue pair: its
alpha-carbon if both residues have one, else its first atom shared with
`res2`. -/
def pickCoord1 (emap1 emap2 : EmapObj) (p : String × String) : Coord :=
  let r1 := emap1.residues p.1
  let r2 := emap2.residues p.2
  if hasAtom r1 "CA" ∧ hasAtom r2 "CA" then atomCoord r1 "CA"
  else atomCoord r1 ((sharedAtomId r1 r2).getD "")

/-- The coordinate contributed by `res2` for a matched residue pair. -/
def pickCoord2 (emap1 emap2 : EmapObj) (p : String × String) : Coord :=
  let r1 := emap1.residues p.1
  let r2 := emap2.residues p.2
  if hasAtom r1 "CA" ∧ hasAtom r2 "CA" then atomCoord r2 "CA"
  else atomCoord r2 ((sharedAtomId r1 r2).getD "")

/-- A state with both groupings precomputed, for the C6 witness. -/
def stC6 : SPState :=
  { (default : SPState) with
    structuralGroups := some [[("A", 1)]]
    sequenceGroups := some [[("A", 2)]] }

/-- Two `SubgraphPattern`s built from identical graph data and support; both
store their own `G.copy()`, so their graph object identities differ. -/
def spA : SPState := initSPState patE 0 0 ["A"] (fun _ => "s")

/-- Same construction as `spA` with a different graph-copy identity. -/
def spB : SPState := initSPState patE 1 0 ["A"] (fun _ => "s")

/-- The post-`find_protein_subgraphs` state of a run over the single host
`"A"` with one monomorphism (one occurrence in total). -/
def stOne : SPState :=
  (findProteinSubgraphs isoAB siZero supAB monosAB
    (initSPState patP 0 0 ["A"] (fun _ => "s")) "structural").toOption.getD default

/-- The post-`find_protein_subgraphs` state of a run over host `"A"` with
two monomorphisms that deduplicate to a single occurrence. -/
def stTwoMonos : SPState :=
  (findProteinSubgraphs isoAB siZero supAB monosTwo
    (initSPState patP 0 0 ["A"] (fun _ => "s")) "structural").toOption.getD default

/-- The post-`find_protein_subgraphs` state of a run over hosts `"A"` and
`"B"` with one occurrence each, exercising the full pairwise clustering. -/
def stPair : SPState :=
  (findProteinSubgraphs isoAB siZero supAB monosAB
    (initSPState patE 0 0 ["A", "B"] (fun _ => "s")) "structural").toOption.getD default

/-- The two pooled id-carrying occurrences of the `stPair` run. -/
def occPairE : List Occ := withIdsOf patE supAB monosAB ["A", "B"]

/-! ## Library lemmas about the sorting and numeric helpers -/

theorem insertLe_perm {α : Type} (le : α → α → Bool) (x : α) (l : List α) :
    (insertLe le x l).Perm (x :: l) := by
  induction l with
  | nil => exact List.Perm.refl _
  | cons y ys ih =>
    unfold insertLe
    by_cases h : le x y = true
    · rw [if_pos h]
    · rw [if_neg h]
      exact (List.Perm.cons y ih).trans (List.Perm.swap x y ys)

theorem sortLe_perm {α : Type} (le : α → α → Bool) (l : List α) :
    (sortLe le l).Perm l := by
  induction l with
  | nil => exact List.Perm.refl _
  | cons x xs ih =>
    exact (insertLe_perm le x (sortLe le xs)).trans (List.Perm.cons x ih)

theorem mem_sortLe {α : Type} (le : α → α → Bool) (l : List α) (x : α) :
    x ∈ sortLe le l ↔ x ∈ l :=
  (sortLe_perm le l).mem_iff

theorem length_sortLe {α : Type} (le : α → α → Bool) (l : List α) :
    (sortLe le l).length = l.length :=
  (sortLe_perm le l).length_eq

theorem insertLe_pairwise {α : Type} (le : α → α → Bool)
    (htrans : ∀ a b c, le a b = true → le b c = true → le a c = true)
    (htotal : ∀ a b, le a b = true ∨ le b a = true) (x : α) (l : List α)
    (hl : l.Pairwise (fun a b => le a b = true)) :
    (insertLe le x l).Pairwise (fun a b => le a b = true) := by
  induction l with
  | nil => simp [insertLe]
  | cons y ys ih =>
    rw [List.pairwise_cons] at hl
    unfold insertLe
    by_cases h : le x y = true
    · rw [if_pos h]
      refine List.Pairwise.cons ?_ (List.Pairwise.cons hl.1 hl.2)
      intro z hz
      rcases List.mem_cons.1 hz with hz | hz
      · exact hz ▸ h
      · exact htrans x y z h (hl.1 z hz)
    · rw [if_neg h]
      refine List.Pairwise.cons ?_ (ih hl.2)
      intro z hz
      rcases List.mem_cons.1 ((insertLe_perm le x ys).mem_iff.1 hz) with hz | hz
      · rcases htotal x y with hxy | hyx
        · exact absurd hxy h
        · exact hz ▸ hyx
      · exact hl.1 z hz

theorem sortLe_pairwise {α : Type} (le : α → α → Bool)
    (htrans : ∀ a b c, le a b = true → le b c = true → le a c = true)
    (htotal : ∀ a b, le a b = true ∨ le b a = true) (l : List α) :
    (sortLe le l).Pairwise (fun a b => le a b = true) := by
  induction l with
  | nil => simp [sortLe]
  | cons x xs ih => exact insertLe_pairwise le htrans htotal x (sortLe le xs) ih

/-! ## C10: `set_clustering` before `find_protein_subgraphs` -/

/-- C10: on a freshly constructed `SubgraphPattern`, `set_clustering` with a
valid option (`"structural"` or `"sequence"`) fails with an
`AttributeError` — the precomputed groupings do not exist yet — rather than
succeeding or raising the invalid-option `Exception`. -/
theorem setClustering_on_fresh_pattern_attribute_error (G : PatternG)
    (gObjId graphNumber : Nat) (support : List String) (smilesF : PatternG → String) :
    setClustering (initSPState G gObjId graphNumber support smilesF) "structural" =
      Except.error (PyErr.attributeError
        "SubgraphPattern object has no attribute _structural_groups") ∧
    setClustering (initSPState G gObjId graphNumber support smilesF) "sequence" =
      Except.error (PyErr.attributeError
        "SubgraphPattern object has no attribute _sequence_groups") :=
  ⟨rfl, rfl⟩

/-! ## C6: `set_clustering` contract -/

/-- C6: when both precomputed groupings exist, `set_clustering` errors
exactly on options outside structural/sequence (the returned state is the
untouched input state, since the error is raised before any assignment),
and on a valid option it only installs the already-computed grouping and
records the option — no recomputation. -/
theorem setClustering_spec (st : SPState) (sg qg : List (List (String × Nat)))
    (opt : String) (hs : st.structuralGroups = some sg) (hq : st.sequenceGroups = some qg) :
    (opt ≠ "structural" → opt ≠ "sequence" →
      setClustering st opt = Except.error (PyErr.exception "Either structural or sequence.")) ∧
    setClustering st "structural" =
      Except.ok { st with groups := sg, clusteringOption := some "structural" } ∧
    setClustering st "sequence" =
      Except.ok { st with groups := qg, clusteringOption := some "sequence" } := by
  refine ⟨?_, ?_, ?_⟩
  · intro h1 h2
    unfold setClustering
    rw [if_neg h1, if_neg h2]
  · unfold setClustering
    rw [if_pos rfl, hs]
  · unfold setClustering
    rw [if_neg (by decide), if_pos rfl, hq]

/-- Witness for C6 at a concrete state and the invalid option `"x"`. -/
theorem setClustering_spec_witness :
    setClustering stC6 "x" = Except.error (PyErr.exception "Either structural or sequence.") ∧
    setClustering stC6 "structural" =
      Except.ok { stC6 with groups := [[("A", 1)]], clusteringOption := some "structural" } ∧
    setClustering stC6 "sequence" =
      Except.ok { stC6 with groups := [[("A", 2)]], clusteringOption := some "sequence" } :=
  ⟨(setClustering_spec stC6 [[("A", 1)]] [[("A", 2)]] "x" rfl rfl).1 (by decide) (by decide),
   (setClustering_spec stC6 [[("A", 1)]] [[("A", 2)]] "x" rfl rfl).2.1,
   (setClustering_spec stC6 [[("A", 1)]] [[("A", 2)]] "x" rfl rfl).2.2⟩

/-! ## C3: the ordering over `SubgraphPattern` objects -/

/-- `__lt__` holds exactly when the three-key comparison chain
(support number, smiles string, `num_label`-weighted size) is
lexicographically strict. -/
theorem spLtB_iff (f : PatternG → String) (a b : SPState) :
    spLtB f a b = true ↔
      a.supportNumber < b.supportNumber ∨
      (a.supportNumber = b.supportNumber ∧ f a.G < f b.G) ∨
      (a.supportNumber = b.supportNumber ∧ f a.G = f b.G ∧
        sizeNumLabel a.G < sizeNumLabel b.G) := by
  unfold spLtB
  by_cases h1 : a.supportNumber ≠ b.supportNumber
  · rw [if_pos h1]
    simp only [decide_eq_true_eq]
    constructor
    · exact fun h => Or.inl h
    · rintro (h | ⟨he, _⟩ | ⟨he, _⟩)
      · exact h
      · exact absurd he h1
      · exact absurd he h1
  · push_neg at h1
    rw [if_neg (fun h => h h1)]
    by_cases h3 : f a.G ≠ f b.G
    · rw [if_pos h3]
      simp only [decide_eq_true_eq]
      constructor
      · exact fun h => Or.inr (Or.inl ⟨h1, h⟩)
      · rintro (h | ⟨_, h⟩ | ⟨_, he, _⟩)
        · exact absurd (h1 ▸ h) (lt_irrefl _)
        · exact h
        · exact absurd he h3
    · push_neg at h3
      rw [if_neg (fun h => h h3)]
      simp only [decide_eq_true_eq]
      constructor
      · exact fun h => Or.inr (Or.inr ⟨h1, h3, h⟩)
      · rintro (h | ⟨_, h⟩ | ⟨_, _, h⟩)
        · exact absurd (h1 ▸ h) (lt_irrefl _)
        · exact absurd (h3 ▸ h) (lt_irrefl _)
        · exact h

/-- C3 (amended): the `__lt__` ordering is transitive and asymmetric — so at
most one of `A<B`, `B<A` holds — but it is not a strict total order
consistent with `__eq__`: trichotomy fails (see the counterexample). -/
theorem spLtB_trans_and_asymm (smilesF : PatternG → String) (a b c : SPState)
    (hab : spLtB smilesF a b = true) :
    (spLtB smilesF b c = true → spLtB smilesF a c = true) ∧
    spLtB smilesF b a = false := by
  rw [spLtB_iff] at hab
  constructor
  · intro hbc
    rw [spLtB_iff] at hbc
    rw [spLtB_iff]
    rcases hab with h | ⟨e1, h⟩ | ⟨e1, e2, h⟩ <;>
      rcases hbc with g | ⟨f1, g⟩ | ⟨f1, f2, g⟩
    · exact Or.inl (lt_trans h g)
    · exact Or.inl (f1 ▸ h)
    · exact Or.inl (f1 ▸ h)
    · exact Or.inl (e1 ▸ g)
    · exact Or.inr (Or.inl ⟨e1.trans f1, lt_trans h g⟩)
    · exact Or.inr (Or.inl ⟨e1.trans f1, f2 ▸ h⟩)
    · exact Or.inl (e1 ▸ g)
    · exact Or.inr (Or.inl ⟨e1.trans f1, e2 ▸ g⟩)
    · exact Or.inr (Or.inr ⟨e1.trans f1, e2.trans f2, lt_trans h g⟩)
  · by_contra hba
    rw [Bool.not_eq_false, spLtB_iff] at hba
    rcases hab with h | ⟨e1, h⟩ | ⟨e1, e2, h⟩ <;>
      rcases hba with g | ⟨f1, g⟩ | ⟨f1, f2, g⟩
    · exact absurd (lt_trans h g) (lt_irrefl _)
    · exact absurd (f1 ▸ h) (lt_irrefl _)
    · exact absurd (f1 ▸ h) (lt_irrefl _)
    · exact absurd (e1 ▸ g) (lt_irrefl _)
    · exact absurd (lt_trans h g) (lt_irrefl _)
    · exact absurd (f2 ▸ h) (lt_irrefl _)
    · exact absurd (e1 ▸ g) (lt_irrefl _)
    · exact absurd (e2 ▸ g) (lt_irrefl _)
    · exact absurd (lt_trans h g) (lt_irrefl _)

/-- C3 counterexample: for two distinct patterns with equal support number,
canonical form and weighted size, none of `A<B`, `A==B`, `B<A` holds, so the
claimed trichotomy fails. -/
theorem spLtB_trichotomy_fails :
    spLtB (fun _ => "s") spA spB = false ∧ spEqB spA spB = false ∧
    spLtB (fun _ => "s") spB spA = false :=
  ⟨rfl, rfl, rfl⟩

/-- Witness for the amended C3 theorem at concrete patterns differing in
support number. -/
theorem spLtB_trans_and_asymm_witness :
    (spLtB (fun _ => "s") (initSPState patE 1 0 ["A"] (fun _ => "s"))
        (initSPState patE 1 0 ["A"] (fun _ => "s")) = true →
      spLtB (fun _ => "s") (initSPState patE 0 0 [] (fun _ => "s"))
        (initSPState patE 1 0 ["A"] (fun _ => "s")) = true) ∧
    spLtB (fun _ => "s") (initSPState patE 1 0 ["A"] (fun _ => "s"))
      (initSPState patE 0 0 [] (fun _ => "s")) = false :=
  spLtB_trans_and_asymm (fun _ => "s") (initSPState patE 0 0 [] (fun _ => "s"))
    (initSPState patE 1 0 ["A"] (fun _ => "s")) (initSPState patE 1 0 ["A"] (fun _ => "s"))
    (by decide)

/-! ## C8: `_subgraph_rmsd` never raises -/

/-- If both residues of a matched pair have an alpha-carbon, then they share
an atom name. -/
theorem sharedAtomId_isSome_of_CA (r1 r2 : ResidueInfo)
    (h1 : hasAtom r1 "CA" = true) (h2 : hasAtom r2 "CA" = true) :
    (sharedAtomId r1 r2).isSome = true := by
  have hex : (List.find? (fun a => hasAtom r2 a.1) r1.atoms).isSome = true := by
    rw [List.find?_isSome]
    rcases List.any_eq_true.1 h1 with ⟨a, ha, hca⟩
    exact ⟨a, ha, by rwa [eq_of_beq hca]⟩
  rcases Option.isSome_iff_exists.1 hex with ⟨y, hy⟩
  unfold sharedAtomId
  rw [hy]
  rfl

/-- A matched residue pair with no shared atom aborts the loop with `⊤`. -/
theorem rmsdLoop_top_of_noShared (si : List Coord → List Coord → ℚ)
    (e1 e2 : EmapObj) (m : List (String × String))
    (hbad : ∃ p ∈ m, sharedAtomId (e1.residues p.1) (e2.residues p.2) = none)
    (a1 a2 : List Coord) :
    rmsdLoop si e1 e2 m a1 a2 = ⊤ := by
  induction m generalizing a1 a2 with
  | nil => exact absurd hbad (by simp)
  | cons q rest ih =>
    rcases hbad with ⟨p, hp, hnone⟩
    rcases List.mem_cons.1 hp with rfl | hp
    · have hnca : ¬(hasAtom (e1.residues p.1) "CA" = true ∧
          hasAtom (e2.residues p.2) "CA" = true) := by
        rintro ⟨h1, h2⟩
        have hsome := sharedAtomId_isSome_of_CA _ _ h1 h2
        rw [hnone] at hsome
        exact absurd hsome (by simp)
      unfold rmsdLoop
      rw [if_neg hnca, hnone]
    · unfold rmsdLoop
      by_cases hca : hasAtom (e1.residues q.1) "CA" = true ∧
          hasAtom (e2.residues q.2) "CA" = true
      · rw [if_pos hca]
        exact ih ⟨p, hp, hnone⟩ _ _
      · rw [if_neg hca]
        cases hs : sharedAtomId (e1.residues q.1) (e2.residues q.2) with
        | none => rfl
        | some sid => exact ih ⟨p, hp, hnone⟩ _ _

/-- When every matched pair has a shared atom, the loop accumulates exactly
the preferred coordinates and hands them to the superimposer (or returns `⊤`
when fewer than two pairs were collected). -/
theorem rmsdLoop_good (si : List Coord → List Coord → ℚ) (e1 e2 : EmapObj)
    (m : List (String × String))
    (hgood : ∀ p ∈ m, (sharedAtomId (e1.residues p.1) (e2.residues p.2)).isSome = true)
    (a1 a2 : List Coord) (hlen : a1.length = a2.length) :
    rmsdLoop si e1 e2 m a1 a2 =
      if 2 ≤ a1.length + m.length then
        ((si (a1 ++ m.map (pickCoord1 e1 e2)) (a2 ++ m.map (pickCoord2 e1 e2)) : ℚ) :
          WithTop ℚ)
      else ⊤ := by
  induction m generalizing a1 a2 with
  | nil =>
    unfold rmsdLoop
    by_cases h2 : 2 ≤ a1.length
    · rw [if_pos ⟨h2, hlen⟩, if_pos (by simpa using h2)]
      simp
    · rw [if_neg (fun hc => h2 hc.1), if_neg (by simpa using h2)]
  | cons q rest ih =>
    have hq := hgood q (List.mem_cons_self q rest)
    unfold rmsdLoop
    by_cases hca : hasAtom (e1.residues q.1) "CA" = true ∧
        hasAtom (e2.residues q.2) "CA" = true
    · rw [if_pos hca]
      rw [ih (fun p hp => hgood p (List.mem_cons_of_mem q hp)) _ _ (by simp [hlen])]
      have hp1 : pickCoord1 e1 e2 q = atomCoord (e1.residues q.1) "CA" := by
        unfold pickCoord1
        rw [if_pos hca]
      have hp2 : pickCoord2 e1 e2 q = atomCoord (e2.residues q.2) "CA" := by
        unfold pickCoord2
        rw [if_pos hca]
      simp only [List.map_cons, List.length_cons, List.length_append, List.length_nil]
      rw [hp1, hp2]
      refine if_congr (by omega) ?_ rfl
      rw [List.append_assoc, List.append_assoc]
      rfl
    · rw [if_neg hca]
      cases hs : sharedAtomId (e1.residues q.1) (e2.residues q.2) with
      | none => rw [hs] at hq; exact absurd hq (by simp)
      | some sid =>
        have hp1 : pickCoord1 e1 e2 q = atomCoord (e1.residues q.1) sid := by
          unfold pickCoord1
          rw [if_neg hca, hs]
          rfl
        have hp2 : pickCoord2 e1 e2 q = atomCoord (e2.residues q.2) sid := by
          unfold pickCoord2
          rw [if_neg hca, hs]
          rfl
        show rmsdLoop si e1 e2 rest (a1 ++ [atomCoord (e1.residues q.1) sid])
            (a2 ++ [atomCoord (e2.residues q.2) sid]) = _
        rw [ih (fun p hp => hgood p (List.mem_cons_of_mem q hp)) _ _ (by simp [hlen])]
        simp only [List.map_cons, List.length_cons, List.length_append, List.length_nil]
        rw [hp1, hp2]
        refine if_congr (by omega) ?_ rfl
        rw [List.append_assoc, List.append_assoc]
        rfl

/-- C8: `_subgraph_rmsd` never raises.  For any mapping: if some matched
residue pair shares no atom name the result is `+inf`; with every pair
sharing an atom but fewer than 2 coordinate pairs the result is `+inf`;
otherwise the superimposer is run on exactly the per-pair preferred
coordinates (the alpha-carbons when both residues have one, else the first
shared atom name). -/
theorem subgraphRmsd_total_spec (si : List Coord → List Coord → ℚ)
    (e1 e2 : EmapObj) (m : List (String × String)) :
    ((∃ p ∈ m, sharedAtomId (e1.residues p.1) (e2.residues p.2) = none) →
      subgraphRmsd si e1 e2 m = ⊤) ∧
    ((∀ p ∈ m, (sharedAtomId (e1.residues p.1) (e2.residues p.2)).isSome = true) →
      m.length < 2 → subgraphRmsd si e1 e2 m = ⊤) ∧
    ((∀ p ∈ m, (sharedAtomId (e1.residues p.1) (e2.residues p.2)).isSome = true) →
      2 ≤ m.length →
      subgraphRmsd si e1 e2 m =
        ((si (m.map (pickCoord1 e1 e2)) (m.map (pickCoord2 e1 e2)) : ℚ) : WithTop ℚ)) := by
  refine ⟨?_, ?_, ?_⟩
  · intro hbad
    exact rmsdLoop_top_of_noShared si e1 e2 m hbad [] []
  · intro hgood hlt
    unfold subgraphRmsd
    rw [rmsdLoop_good si e1 e2 m hgood [] [] rfl]
    rw [if_neg (by simpa using Nat.not_le.2 hlt)]
  · intro hgood hge
    unfold subgraphRmsd
    rw [rmsdLoop_good si e1 e2 m hgood [] [] rfl]
    rw [if_pos (by simpa using hge)]
    simp

/-- Witness for C8: a pair with no shared atom gives `⊤`, a single-pair
mapping gives `⊤`, and a clean two-pair mapping runs the superimposer on the
alpha-carbon coordinates. -/
theorem subgraphRmsd_total_spec_witness :
    subgraphRmsd siZero emapA emapB [("a", "z"), ("b", "d")] = ⊤ ∧
    subgraphRmsd siZero emapA emapB [("a", "c")] = ⊤ ∧
    subgraphRmsd siZero emapA emapB [("a", "c"), ("b", "d")] =
      ((siZero ([("a", "c"), ("b", "d")].map (pickCoord1 emapA emapB))
        ([("a", "c"), ("b", "d")].map (pickCoord2 emapA emapB)) : ℚ) : WithTop ℚ) :=
  ⟨(subgraphRmsd_total_spec siZero emapA emapB [("a", "z"), ("b", "d")]).1
      ⟨("a", "z"), by decide, by decide⟩,
   (subgraphRmsd_total_spec siZero emapA emapB [("a", "c")]).2.1
      (by decide) (by decide),
   (subgraphRmsd_total_spec siZero emapA emapB [("a", "c"), ("b", "d")]).2.2
      (by decide) (by decide)⟩

/-! ## Inversion helpers for the aggregate methods -/

/-- A successful `set_clustering` only rewrites `groups` and
`clustering_option`; every other attribute is untouched. -/
theorem setClustering_ok_inv (st : SPState) (opt : String) (st' : SPState)
    (h : setClustering st opt = Except.ok st') :
    st'.proteinSubgraphs = st.proteinSubgraphs ∧ st'.totalSupport = st.totalSupport ∧
    st'.structuralGroups = st.structuralGroups ∧ st'.sequenceGroups = st.sequenceGroups ∧
    st'.G = st.G ∧ st'.supportIds = st.supportIds := by
  unfold setClustering at h
  by_cases h1 : opt = "structural"
  · rw [if_pos h1] at h
    cases hs : st.structuralGroups with
    | none => rw [hs] at h; cases h
    | some g =>
      rw [hs] at h
      injection h with h
      subst h
      exact ⟨rfl, rfl, rfl, rfl, rfl, rfl⟩
  · rw [if_neg h1] at h
    by_cases h2 : opt = "sequence"
    · rw [if_pos h2] at h
      cases hs : st.sequenceGroups with
      | none => rw [hs] at h; cases h
      | some g =>
        rw [hs] at h
        injection h with h
        subst h
        exact ⟨rfl, rfl, rfl, rfl, rfl, rfl⟩
    · rw [if_neg h2] at h
      cases h

/-- Inversion of a successful `find_protein_subgraphs` run: the stored
occurrences and `total_support`, and the two precomputed groupings according
to which branch ran. -/
theorem findPS_ok_inv (iso : Occ → Occ → List (List (String × String)))
    (si : List Coord → List Coord → ℚ) (supportF : String → EmapObj)
    (monosF : String → List (List (String × Nat))) (st : SPState) (opt : String)
    (st' : SPState)
    (h : findProteinSubgraphs iso si supportF monosF st opt = Except.ok st') :
    st'.proteinSubgraphs =
      (withIdsOf st.G supportF monosF st.supportIds).map (fun (g : Occ) => (g.gid, g)) ∧
    st'.totalSupport = tsOf st.G supportF monosF st.totalSupport st.supportIds ∧
    st'.G = st.G ∧
    ((1 < (withIdsOf st.G supportF monosF st.supportIds).length ∧
      ∃ sg qg, doClustering iso si supportF (withIdsOf st.G supportF monosF st.supportIds) =
          Except.ok (sg, qg) ∧
        st'.structuralGroups = some sg ∧ st'.sequenceGroups = some qg) ∨
     ((withIdsOf st.G supportF monosF st.supportIds).length ≤ 1 ∧
      st'.groups =
        [(withIdsOf st.G supportF monosF st.supportIds).map (fun (g : Occ) => g.gid)] ∧
      st'.structuralGroups = some st'.groups ∧ st'.sequenceGroups = some st'.groups ∧
      st'.clusteringOption = some opt)) := by
  unfold findProteinSubgraphs at h
  by_cases hn : 1 < (withIdsOf st.G supportF monosF st.supportIds).length
  · rw [if_pos hn] at h
    cases hdc : doClustering iso si supportF (withIdsOf st.G supportF monosF st.supportIds) with
    | error e => rw [hdc] at h; cases h
    | ok p =>
      rw [hdc] at h
      rcases p with ⟨sg, qg⟩
      rcases setClustering_ok_inv _ _ _ h with ⟨h1, h2, h3, h4, h5, h6⟩
      refine ⟨by rw [h1], by rw [h2], by rw [h5], Or.inl ⟨hn, sg, qg, rfl, by rw [h3], by rw [h4]⟩⟩
  · rw [if_neg hn] at h
    injection h with h
    subst h
    exact ⟨rfl, rfl, rfl, Or.inr ⟨Nat.not_lt.1 hn, rfl, rfl, rfl, rfl⟩⟩

/-! ## C9: occurrence edges are exactly the relabeled pattern edges -/

/-- Membership in a fold that appends per-host occurrence lists. -/
theorem mem_poolOf (P : PatternG) (supportF : String → EmapObj)
    (monosF : String → List (List (String × Nat))) (ids : List String) (x : Occ) :
    x ∈ poolOf P supportF monosF ids ↔
      ∃ hid ∈ ids, x ∈ findSubgraphInPdb P (supportF hid) (monosF hid) := by
  have key : ∀ (l : List String) (acc : List Occ),
      x ∈ l.foldl (fun a h => a ++ findSubgraphInPdb P (supportF h) (monosF h)) acc ↔
        x ∈ acc ∨ ∃ hid ∈ l, x ∈ findSubgraphInPdb P (supportF hid) (monosF hid) := by
    intro l
    induction l with
    | nil => simp
    | cons hd tl ih =>
      intro acc
      rw [List.foldl_cons, ih]
      simp only [List.mem_append, List.mem_cons]
      constructor
      · rintro ((hx | hx) | ⟨hid, hh, hx⟩)
        · exact Or.inl hx
        · exact Or.inr ⟨hd, Or.inl rfl, hx⟩
        · exact Or.inr ⟨hid, Or.inr hh, hx⟩
      · rintro (hx | ⟨hid, hh | hh, hx⟩)
        · exact Or.inl (Or.inl hx)
        · exact Or.inl (Or.inr (hh ▸ hx))
        · exact Or.inr ⟨hid, hh, hx⟩
  rw [poolOf, key]
  simp

/-- Everything `dedupLoop` returns is either carried in or generated from
one of the mappings. -/
theorem mem_dedupLoop (P : PatternG) (emap : EmapObj)
    (ms : List (List (String × Nat))) :
    ∀ (sgs : List Occ) (dds : List (List (String × Nat))) (x : Occ),
      x ∈ dedupLoop P emap ms sgs dds →
      x ∈ sgs ∨ ∃ m ∈ ms, x = generateProteinSubgraph m emap.initGraph P emap.residues := by
  induction ms with
  | nil => intro sgs dds x hx; exact Or.inl hx
  | cons m rest ih =>
    intro sgs dds x hx
    simp only [dedupLoop] at hx
    split at hx
    · rcases ih _ _ _ hx with h | ⟨m2, hm2, he⟩
      · exact Or.inl h
      · exact Or.inr ⟨m2, List.mem_cons_of_mem _ hm2, he⟩
    · rcases ih _ _ _ hx with h | ⟨m2, hm2, he⟩
      · rcases List.mem_append.1 h with h | h
        · exact Or.inl h
        · exact Or.inr ⟨m, List.mem_cons_self _ _, by simpa using h⟩
      · exact Or.inr ⟨m2, List.mem_cons_of_mem _ hm2, he⟩

/-- Every id-carrying occurrence is one of the input occurrences with only
its `graph['id']` attribute rewritten. -/
theorem mem_assignIds :
    ∀ (l : List Occ) (k : Nat) (x : Occ), x ∈ assignIds k l →
      ∃ g ∈ l, ∃ r : Nat, x = { g with gid := (g.pdbId, r) } := by
  intro l
  induction l with
  | nil => intro k x hx; cases hx
  | cons g gs ih =>
    intro k x hx
    rcases List.mem_cons.1 hx with rfl | hx
    · exact ⟨g, List.mem_cons_self _ _, k + 1, rfl⟩
    · rcases ih (k + 1) x hx with ⟨g2, hg2, r, he⟩
      exact ⟨g2, List.mem_cons_of_mem _ hg2, r, he⟩

/-- C9: every occurrence stored by `find_protein_subgraphs` carries exactly
the pattern's edge set relabeled along its monomorphism — host edges between
mapped nodes that are not pattern edges are never included, so each stored
occurrence is edge-isomorphic to the pattern graph. -/
theorem findPS_occurrence_edges (iso : Occ → Occ → List (List (String × String)))
    (si : List Coord → List Coord → ℚ) (supportF : String → EmapObj)
    (monosF : String → List (List (String × Nat))) (st : SPState) (opt : String)
    (st' : SPState)
    (h : findProteinSubgraphs iso si supportF monosF st opt = Except.ok st') :
    ∀ p ∈ st'.proteinSubgraphs, ∃ hid ∈ st.supportIds, ∃ m ∈ monosF hid,
      (p.2).edges =
        st.G.edges.map (fun e => (invLookup m e.1, invLookup m e.2)) := by
  intro p hp
  obtain ⟨hps, -, -, -⟩ := findPS_ok_inv iso si supportF monosF st opt st' h
  rw [hps] at hp
  rcases List.mem_map.1 hp with ⟨g, hg, rfl⟩
  rcases mem_assignIds _ 0 g hg with ⟨g2, hg2, r, rfl⟩
  rw [sortedPoolOf, mem_sortLe] at hg2
  rcases (mem_poolOf _ _ _ _ _).1 hg2 with ⟨hid, hhid, hfind⟩
  rcases mem_dedupLoop _ _ _ _ _ _ hfind with h0 | ⟨m, hm, rfl⟩
  · cases h0
  · exact ⟨hid, hhid, m, hm, rfl⟩

/-- Witness for C9: in the concrete single-occurrence run, the stored
occurrence's edges are the pattern edges relabeled along its monomorphism. -/
theorem findPS_occurrence_edges_witness :
    ∃ hid ∈ (initSPState patP 0 0 ["A"] (fun _ => "s")).supportIds,
      ∃ m ∈ monosAB hid,
        ((stOne.proteinSubgraphs.getD 0 default).2).edges =
          (initSPState patP 0 0 ["A"] (fun _ => "s")).G.edges.map
            (fun e => (invLookup m e.1, invLookup m e.2)) :=
  findPS_occurrence_edges isoAB siZero supAB monosAB
    (initSPState patP 0 0 ["A"] (fun _ => "s")) "structural" stOne rfl
    (stOne.proteinSubgraphs.getD 0 default)
    (by
      have hlen : 0 < stOne.proteinSubgraphs.length := by decide
      rw [List.getD_eq_getElem stOne.proteinSubgraphs default hlen]
      exact List.getElem_mem hlen)

/-! ## C1: what `total_support` actually counts -/

/-- `lookup` on a cons whose key matches. -/
theorem lookup_cons_self (k : String) (v : Nat) (t : List (String × Nat)) :
    List.lookup k ((k, v) :: t) = some v := by
  simp [List.lookup_cons]

/-- `lookup` on a cons whose key differs. -/
theorem lookup_cons_ne (k a1 : String) (a2 : Nat) (t : List (String × Nat))
    (h : k ≠ a1) : List.lookup k ((a1, a2) :: t) = List.lookup k t := by
  simp [List.lookup_cons, beq_eq_false_iff_ne.2 h]

/-- Looking up a key after `d[k] = v` yields `v`. -/
theorem lookup_updateAssoc_self (l : List (String × Nat)) (k : String) (v : Nat) :
    (updateAssoc l k v).lookup k = some v := by
  unfold updateAssoc
  by_cases h : l.any (fun p => p.1 == k) = true
  · rw [if_pos h]
    induction l with
    | nil => cases h
    | cons a t ih =>
      obtain ⟨a1, a2⟩ := a
      simp only [List.any_cons, Bool.or_eq_true] at h
      by_cases ha : (a1 == k) = true
      · simp only [List.map_cons, if_pos ha]
        exact lookup_cons_self k v _
      · simp only [List.map_cons, if_neg ha]
        rw [lookup_cons_ne k a1 a2 _ (fun he => ha (beq_iff_eq.2 he.symm))]
        rcases h with h | h
        · exact absurd h ha
        · exact ih h
  · rw [if_neg h]
    rw [Bool.not_eq_true] at h
    induction l with
    | nil => exact lookup_cons_self k v []
    | cons a t ih =>
      obtain ⟨a1, a2⟩ := a
      simp only [List.any_cons, Bool.or_eq_false_iff] at h
      rw [List.cons_append]
      rw [lookup_cons_ne k a1 a2 _
        (fun he => absurd (beq_iff_eq.2 he.symm) (Bool.eq_false_iff.1 h.1 ∘ Eq.mpr rfl))]
      exact ih h.2

/-- Looking up a different key after `d[k] = v` is unchanged. -/
theorem lookup_updateAssoc_ne (l : List (String × Nat)) (k : String) (v : Nat)
    (k2 : String) (h : k2 ≠ k) : (updateAssoc l k v).lookup k2 = l.lookup k2 := by
  unfold updateAssoc
  by_cases ha : l.any (fun p => p.1 == k) = true
  · rw [if_pos ha]
    clear ha
    induction l with
    | nil => rfl
    | cons a t ih =>
      obtain ⟨a1, a2⟩ := a
      simp only [List.map_cons]
      by_cases hak : (a1 == k) = true
      · rw [if_pos hak]
        have he : a1 = k := beq_iff_eq.1 hak
        subst he
        rw [lookup_cons_ne k2 a1 v _ h, lookup_cons_ne k2 a1 a2 _ h]
        exact ih
      · rw [if_neg hak]
        by_cases hk2 : k2 = a1
        · subst hk2
          rw [lookup_cons_self, lookup_cons_self]
        · rw [lookup_cons_ne k2 a1 a2 _ hk2, lookup_cons_ne k2 a1 a2 _ hk2]
          exact ih
  · rw [if_neg ha]
    induction l with
    | nil =>
      rw [List.nil_append, lookup_cons_ne k2 k v [] h]
    | cons a t ih =>
      obtain ⟨a1, a2⟩ := a
      rw [List.cons_append]
      by_cases hk2 : k2 = a1
      · subst hk2
        rw [lookup_cons_self, lookup_cons_self]
      · rw [lookup_cons_ne k2 a1 a2 _ hk2, lookup_cons_ne k2 a1 a2 _ hk2]
        apply ih
        simp only [List.any_cons, Bool.or_eq_true] at ha
        intro hc
        exact ha (Or.inr hc)

/-- Folding further host updates over keys other than `hid` does not change
`hid`'s entry. -/
theorem lookup_tsOf_not_mem (P : PatternG) (supportF : String → EmapObj)
    (monosF : String → List (List (String × Nat))) :
    ∀ (ids : List String) (ts : List (String × Nat)) (hid : String), hid ∉ ids →
      (tsOf P supportF monosF ts ids).lookup hid = ts.lookup hid := by
  intro ids
  induction ids with
  | nil => intro ts hid _; rfl
  | cons a t ih =>
    intro ts hid hmem
    rw [tsOf, List.foldl_cons]
    have h1 : hid ∉ t := fun hc => hmem (List.mem_cons_of_mem _ hc)
    have h2 : hid ≠ a := fun hc => hmem (hc ▸ List.mem_cons_self _ _)
    rw [show t.foldl (fun ts h2 =>
        updateAssoc ts h2 (findSubgraphInPdb P (supportF h2) (monosF h2)).length)
        (updateAssoc ts a (findSubgraphInPdb P (supportF a) (monosF a)).length) =
        tsOf P supportF monosF
          (updateAssoc ts a (findSubgraphInPdb P (supportF a) (monosF a)).length) t from rfl]
    rw [ih _ hid h1]
    exact lookup_updateAssoc_ne _ _ _ _ h2

/-- After the per-host loop, each host's `total_support` entry is the length
of its deduplicated occurrence list. -/
theorem lookup_tsOf (P : PatternG) (supportF : String → EmapObj)
    (monosF : String → List (List (String × Nat))) :
    ∀ (ids : List String) (ts : List (String × Nat)) (hid : String), hid ∈ ids →
      ids.Nodup →
      (tsOf P supportF monosF ts ids).lookup hid =
        some (findSubgraphInPdb P (supportF hid) (monosF hid)).length := by
  intro ids
  induction ids with
  | nil => intro _ _ h; cases h
  | cons a t ih =>
    intro ts hid hmem hnodup
    rw [tsOf, List.foldl_cons]
    rcases List.mem_cons.1 hmem with rfl | hmem
    · have hnot : hid ∉ t := (List.nodup_cons.1 hnodup).1
      rw [show t.foldl (fun ts h2 =>
          updateAssoc ts h2 (findSubgraphInPdb P (supportF h2) (monosF h2)).length)
          (updateAssoc ts hid (findSubgraphInPdb P (supportF hid) (monosF hid)).length) =
          tsOf P supportF monosF
            (updateAssoc ts hid (findSubgraphInPdb P (supportF hid) (monosF hid)).length) t
          from rfl]
      rw [lookup_tsOf_not_mem P supportF monosF t _ hid hnot]
      exact lookup_updateAssoc_self _ _ _
    · exact ih _ hid hmem (List.nodup_cons.1 hnodup).2

/-- C1 counterexample: host `"A"` has two monomorphism embeddings of the
pattern which deduplicate to one occurrence; after
`find_protein_subgraphs`, `total_support["A"]` is 1, not the pre-dedup
count 2. -/
theorem totalSupport_not_pre_dedup :
    stTwoMonos.totalSupport.lookup "A" = some 1 ∧ (monosTwo "A").length = 2 ∧
    ¬ stTwoMonos.totalSupport.lookup "A" = some ((monosTwo "A").length) :=
  ⟨by decide, by decide, by decide⟩

/-- C1 (amended): after `find_protein_subgraphs`, for every host id (support
keys being distinct), `total_support[host]` equals the post-dedup count —
the number of occurrences of that host that survive deduplication. -/
theorem findPS_totalSupport_post_dedup (iso : Occ → Occ → List (List (String × String)))
    (si : List Coord → List Coord → ℚ) (supportF : String → EmapObj)
    (monosF : String → List (List (String × Nat))) (st : SPState) (opt : String)
    (st' : SPState)
    (h : findProteinSubgraphs iso si supportF monosF st opt = Except.ok st')
    (hnodup : st.supportIds.Nodup) :
    ∀ hid ∈ st.supportIds, st'.totalSupport.lookup hid =
      some (findSubgraphInPdb st.G (supportF hid) (monosF hid)).length := by
  intro hid hmem
  obtain ⟨-, hts', -, -⟩ := findPS_ok_inv iso si supportF monosF st opt st' h
  rw [hts']
  exact lookup_tsOf st.G supportF monosF st.supportIds st.totalSupport hid hmem hnodup

/-- Witness for the amended C1 at the concrete two-monomorphism run. -/
theorem findPS_totalSupport_post_dedup_witness :
    stTwoMonos.totalSupport.lookup "A" =
      some (findSubgraphInPdb (initSPState patP 0 0 ["A"] (fun _ => "s")).G
        (supAB "A") (monosTwo "A")).length :=
  findPS_totalSupport_post_dedup isoAB siZero supAB monosTwo
    (initSPState patP 0 0 ["A"] (fun _ => "s")) "structural" stTwoMonos rfl
    (by decide) "A" (by decide)

/-! ## C4 and C2: the pairwise edge loop of `_do_clustering` -/

/-- `np.min` of a nonempty list succeeds. -/
theorem npMin_of_ne_nil {α : Type} [LinearOrder α] (l : List α) (h : l ≠ []) :
    ∃ v, npMin l = some v := by
  cases l with
  | nil => exact absurd rfl h
  | cons x xs => exact ⟨xs.foldl min x, rfl⟩

/-- A successful `pairStep` appends exactly the two thresholded edge
decisions. -/
theorem pairStep_ok (iso : Occ → Occ → List (List (String × String)))
    (si : List Coord → List Coord → ℚ) (supportF : String → EmapObj)
    (graphs : List Occ) (numNodes : Nat)
    (acc : List (Nat × Nat) × List (Nat × Nat)) (p : Nat × Nat)
    (hne : iso (graphs.getD p.1 default) (graphs.getD p.2 default) ≠ [])
    (hgood : ∀ m ∈ iso (graphs.getD p.1 default) (graphs.getD p.2 default),
      (subgraphSeqDist (graphs.getD p.1 default) (graphs.getD p.2 default) m).isSome = true) :
    pairStep iso si supportF graphs numNodes acc p =
      Except.ok
        (acc.1 ++ (if seqEdgeCond (graphs.getD p.1 default) (graphs.getD p.2 default)
            (iso (graphs.getD p.1 default) (graphs.getD p.2 default)) numNodes then [p] else []),
         acc.2 ++ (if structEdgeCond si supportF (graphs.getD p.1 default)
            (graphs.getD p.2 default)
            (iso (graphs.getD p.1 default) (graphs.getD p.2 default)) then [p] else [])) := by
  simp only [pairStep]
  generalize hgi : graphs.getD p.1 default = gi at *
  generalize hgj : graphs.getD p.2 default = gj at *
  have hany : (iso gi gj).any (fun m => (subgraphSeqDist gi gj m).isNone) = false := by
    rw [List.any_eq_false]
    intro m hm
    rw [Bool.not_eq_true, Option.isNone_eq_false_iff]
    exact hgood m hm
  have hfm : (iso gi gj).filterMap (subgraphSeqDist gi gj) ≠ [] := by
    intro hc
    rw [List.filterMap_eq_nil_iff] at hc
    cases hms : iso gi gj with
    | nil => exact hne hms
    | cons m ms =>
      have h2 := hgood m (hms ▸ List.mem_cons_self m ms)
      rw [hc m (hms ▸ List.mem_cons_self m ms)] at h2
      cases h2
  have hmap : (iso gi gj).map (subgraphRmsd si (supportF gi.pdbId) (supportF gj.pdbId)) ≠ [] := by
    intro hc
    rw [List.map_eq_nil_iff] at hc
    exact hne hc
  obtain ⟨sd, hsd⟩ := npMin_of_ne_nil _ hfm
  obtain ⟨rd, hrd⟩ := npMin_of_ne_nil _ hmap
  have hsd2 : minSeqDist gi gj (iso gi gj) = some sd := hsd
  have hrd2 : minRmsd si (supportF gi.pdbId) (supportF gj.pdbId) (iso gi gj) = some rd := hrd
  have hseq : seqEdgeCond gi gj (iso gi gj) numNodes = decide (sd < (numNodes : ℤ)) := by
    unfold seqEdgeCond
    rw [hsd2]
  have hstruct : structEdgeCond si supportF gi gj (iso gi gj) = decide (rd ≤ structThresh) := by
    unfold structEdgeCond
    rw [hrd2]
  rw [hany, hseq, hstruct, hsd2, hrd2]
  by_cases h1 : sd < (numNodes : ℤ) <;> by_cases h2 : rd ≤ structThresh <;>
    simp [h1, h2]

/-- A full run of the edge loop over well-behaved pairs collects exactly the
filtered pair lists. -/
theorem edgesLoop_ok (iso : Occ → Occ → List (List (String × String)))
    (si : List Coord → List Coord → ℚ) (supportF : String → EmapObj)
    (graphs : List Occ) (numNodes : Nat) :
    ∀ (ps : List (Nat × Nat)) (acc : List (Nat × Nat) × List (Nat × Nat)),
      (∀ p ∈ ps, iso (graphs.getD p.1 default) (graphs.getD p.2 default) ≠ [] ∧
        ∀ m ∈ iso (graphs.getD p.1 default) (graphs.getD p.2 default),
          (subgraphSeqDist (graphs.getD p.1 default) (graphs.getD p.2 default) m).isSome = true) →
      edgesLoop iso si supportF graphs numNodes ps acc =
        Except.ok
          (acc.1 ++ ps.filter (fun p => seqEdgeCond (graphs.getD p.1 default)
              (graphs.getD p.2 default)
              (iso (graphs.getD p.1 default) (graphs.getD p.2 default)) numNodes),
           acc.2 ++ ps.filter (fun p => structEdgeCond si supportF (graphs.getD p.1 default)
              (graphs.getD p.2 default)
              (iso (graphs.getD p.1 default) (graphs.getD p.2 default)))) := by
  intro ps
  induction ps with
  | nil =>
    intro acc _
    simp [edgesLoop]
  | cons q rest ih =>
    intro acc hok
    have hq := hok q (List.mem_cons_self q rest)
    unfold edgesLoop
    rw [pairStep_ok iso si supportF graphs numNodes acc q hq.1 hq.2]
    show edgesLoop iso si supportF graphs numNodes rest _ = _
    rw [ih _ (fun p hp => hok p (List.mem_cons_of_mem q hp))]
    simp only [List.filter_cons]
    by_cases h1 : seqEdgeCond (graphs.getD q.1 default) (graphs.getD q.2 default)
        (iso (graphs.getD q.1 default) (graphs.getD q.2 default)) numNodes = true <;>
      by_cases h2 : structEdgeCond si supportF (graphs.getD q.1 default)
        (graphs.getD q.2 default)
        (iso (graphs.getD q.1 default) (graphs.getD q.2 default)) = true <;>
      simp only [h1, h2] <;>
      simp [List.append_assoc]

/-- `(i, j)` is scanned by the double loop iff `i < j < n`. -/
theorem mem_pairList (n i j : Nat) : (i, j) ∈ pairList n ↔ i < j ∧ j < n := by
  unfold pairList
  simp only [List.mem_flatMap, List.mem_map, List.mem_range, List.mem_range'_1,
    Prod.mk.injEq]
  constructor
  · rintro ⟨a, ha, b, ⟨hb1, hb2⟩, rfl, rfl⟩
    omega
  · rintro ⟨h1, h2⟩
    exact ⟨i, by omega, j, by omega, rfl, rfl⟩

/-- C4: with at least one isomorphism per pair (and well-typed sequence
distances), the edge phase of `_do_clustering` succeeds, and for every
`i < j < n` the pair `(i, j)` is a sequence edge iff the minimum sequence
distance is strictly below the pattern node count, and a structural edge iff
the minimum RMSD is `≤ 0.5` (`structThresh`) — so RMSD exactly `0.5` is
connected and anything larger is not. -/
theorem clusterEdges_spec (iso : Occ → Occ → List (List (String × String)))
    (si : List Coord → List Coord → ℚ) (supportF : String → EmapObj)
    (graphs : List Occ)
    (hok : ∀ p ∈ pairList graphs.length,
      iso (graphs.getD p.1 default) (graphs.getD p.2 default) ≠ [] ∧
      ∀ m ∈ iso (graphs.getD p.1 default) (graphs.getD p.2 default),
        (subgraphSeqDist (graphs.getD p.1 default) (graphs.getD p.2 default) m).isSome = true) :
    ∃ seqE structE,
      clusterEdges iso si supportF graphs ((graphs.getD 0 default).nodes.length) =
        Except.ok (seqE, structE) ∧
      (∀ i j : Nat, (i, j) ∈ seqE ↔ i < j ∧ j < graphs.length ∧
        ∃ sd, minSeqDist (graphs.getD i default) (graphs.getD j default)
            (iso (graphs.getD i default) (graphs.getD j default)) = some sd ∧
          sd < (((graphs.getD 0 default).nodes.length : Nat) : ℤ)) ∧
      (∀ i j : Nat, (i, j) ∈ structE ↔ i < j ∧ j < graphs.length ∧
        ∃ rd, minRmsd si (supportF (graphs.getD i default).pdbId)
            (supportF (graphs.getD j default).pdbId)
            (iso (graphs.getD i default) (graphs.getD j default)) = some rd ∧
          rd ≤ structThresh) := by
  refine ⟨(pairList graphs.length).filter (fun p => seqEdgeCond (graphs.getD p.1 default)
      (graphs.getD p.2 default) (iso (graphs.getD p.1 default) (graphs.getD p.2 default))
      ((graphs.getD 0 default).nodes.length)),
    (pairList graphs.length).filter (fun p => structEdgeCond si supportF
      (graphs.getD p.1 default) (graphs.getD p.2 default)
      (iso (graphs.getD p.1 default) (graphs.getD p.2 default))), ?_, ?_, ?_⟩
  · unfold clusterEdges
    rw [edgesLoop_ok iso si supportF graphs ((graphs.getD 0 default).nodes.length)
      (pairList graphs.length) ([], []) hok]
    rw [List.nil_append, List.nil_append]
  · intro i j
    rw [List.mem_filter, mem_pairList]
    constructor
    · rintro ⟨⟨h1, h2⟩, hc⟩
      refine ⟨h1, h2, ?_⟩
      unfold seqEdgeCond at hc
      cases hm : minSeqDist (graphs.getD i default) (graphs.getD j default)
          (iso (graphs.getD i default) (graphs.getD j default)) with
      | none => rw [hm] at hc; cases hc
      | some sd =>
        rw [hm] at hc
        exact ⟨sd, rfl, of_decide_eq_true hc⟩
    · rintro ⟨h1, h2, sd, hsd, hlt⟩
      refine ⟨⟨h1, h2⟩, ?_⟩
      unfold seqEdgeCond
      rw [hsd]
      exact decide_eq_true hlt
  · intro i j
    rw [List.mem_filter, mem_pairList]
    constructor
    · rintro ⟨⟨h1, h2⟩, hc⟩
      refine ⟨h1, h2, ?_⟩
      unfold structEdgeCond at hc
      cases hm : minRmsd si (supportF (graphs.getD i default).pdbId)
          (supportF (graphs.getD j default).pdbId)
          (iso (graphs.getD i default) (graphs.getD j default)) with
      | none => rw [hm] at hc; cases hc
      | some rd =>
        rw [hm] at hc
        exact ⟨rd, rfl, of_decide_eq_true hc⟩
    · rintro ⟨h1, h2, rd, hrd, hle⟩
      refine ⟨⟨h1, h2⟩, ?_⟩
      unfold structEdgeCond
      rw [hrd]
      exact decide_eq_true hle

/-- Witness for C4: the concrete two-occurrence pool, whose single pair gets
both a sequence and a structural edge. -/
theorem clusterEdges_spec_witness :
    ∃ seqE structE,
      clusterEdges isoAB siZero supAB occPairE ((occPairE.getD 0 default).nodes.length) =
        Except.ok (seqE, structE) ∧
      (∀ i j : Nat, (i, j) ∈ seqE ↔ i < j ∧ j < occPairE.length ∧
        ∃ sd, minSeqDist (occPairE.getD i default) (occPairE.getD j default)
            (isoAB (occPairE.getD i default) (occPairE.getD j default)) = some sd ∧
          sd < (((occPairE.getD 0 default).nodes.length : Nat) : ℤ)) ∧
      (∀ i j : Nat, (i, j) ∈ structE ↔ i < j ∧ j < occPairE.length ∧
        ∃ rd, minRmsd siZero (supAB (occPairE.getD i default).pdbId)
            (supAB (occPairE.getD j default).pdbId)
            (isoAB (occPairE.getD i default) (occPairE.getD j default)) = some rd ∧
          rd ≤ structThresh) :=
  clusterEdges_spec isoAB siZero supAB occPairE (by decide)

/-- A successful `pairStep` means the pair had at least one isomorphism. -/
theorem pairStep_ok_iso_ne_nil (iso : Occ → Occ → List (List (String × String)))
    (si : List Coord → List Coord → ℚ) (supportF : String → EmapObj)
    (graphs : List Occ) (numNodes : Nat)
    (acc acc2 : List (Nat × Nat) × List (Nat × Nat)) (p : Nat × Nat)
    (h : pairStep iso si supportF graphs numNodes acc p = Except.ok acc2) :
    iso (graphs.getD p.1 default) (graphs.getD p.2 default) ≠ [] := by
  intro hc
  simp only [pairStep] at h
  rw [hc] at h
  simp [minSeqDist, npMin] at h

/-- If any pair in the scan list has zero isomorphisms, the edge loop raises
(the `np.min` of an empty array), regardless of where the pair sits. -/
theorem edgesLoop_error_of_empty_iso (iso : Occ → Occ → List (List (String × String)))
    (si : List Coord → List Coord → ℚ) (supportF : String → EmapObj)
    (graphs : List Occ) (numNodes : Nat) :
    ∀ (ps : List (Nat × Nat)) (acc : List (Nat × Nat) × List (Nat × Nat)),
      (∃ p ∈ ps, iso (graphs.getD p.1 default) (graphs.getD p.2 default) = []) →
      ∃ msg, edgesLoop iso si supportF graphs numNodes ps acc = Except.error msg := by
  intro ps
  induction ps with
  | nil =>
    intro acc h
    exact absurd h (by simp)
  | cons q rest ih =>
    intro acc h
    cases hstep : pairStep iso si supportF graphs numNodes acc q with
    | error e =>
      refine ⟨e, ?_⟩
      unfold edgesLoop
      rw [hstep]
    | ok acc2 =>
      have hqne := pairStep_ok_iso_ne_nil iso si supportF graphs numNodes acc acc2 q hstep
      rcases h with ⟨p, hp, hiso⟩
      rcases List.mem_cons.1 hp with rfl | hp
      · exact absurd hiso hqne
      · obtain ⟨msg, hmsg⟩ := ih acc2 ⟨p, hp, hiso⟩
        refine ⟨msg, ?_⟩
        unfold edgesLoop
        rw [hstep]
        exact hmsg

/-- C2 (amended): if the isomorphism enumeration yields zero mappings for
some pooled pair, `_do_clustering` does not silently give the pair no edge —
it raises (`np.min` of a zero-size array), and no similarity graphs are
produced. -/
theorem doClustering_error_of_empty_iso (iso : Occ → Occ → List (List (String × String)))
    (si : List Coord → List Coord → ℚ) (supportF : String → EmapObj)
    (graphs : List Occ)
    (h : ∃ p ∈ pairList graphs.length,
      iso (graphs.getD p.1 default) (graphs.getD p.2 default) = []) :
    ∃ msg, doClustering iso si supportF graphs = Except.error msg := by
  obtain ⟨msg, hmsg⟩ := edgesLoop_error_of_empty_iso iso si supportF graphs
    ((graphs.getD 0 default).nodes.length) (pairList graphs.length) ([], []) h
  refine ⟨msg, ?_⟩
  simp only [doClustering, clusterEdges]
  rw [hmsg]

/-- Witness for the amended C2 at a concrete pool whose only pair has zero
isomorphisms. -/
theorem doClustering_error_of_empty_iso_witness :
    ∃ msg, doClustering (fun _ _ => []) siZero supAB occPairE = Except.error msg :=
  doClustering_error_of_empty_iso (fun _ _ => []) siZero supAB occPairE
    ⟨(0, 1), by decide, rfl⟩

/-- C2 counterexample: with zero isomorphisms between the two pooled
occurrences, the clustering computation raises the numpy zero-size-array
error instead of proceeding with no edge for the pair. -/
theorem doClustering_raises_on_empty_iso :
    doClustering (fun _ _ => []) siZero supAB occPairE =
      Except.error "zero-size array to reduction operation minimum which has no identity" :=
  rfl

/-! ## C7: at most one occurrence in total -/

/-- C7: when the pooled occurrence list has length at most 1,
`find_protein_subgraphs` performs no pairwise similarity computation (the
result does not depend on the isomorphism enumerator or the superimposer at
all) and installs, for both metrics, the single group — group id 1 —
containing all (0 or 1) occurrence ids. -/
theorem findPS_singleton (iso : Occ → Occ → List (List (String × String)))
    (si : List Coord → List Coord → ℚ) (supportF : String → EmapObj)
    (monosF : String → List (List (String × Nat))) (st : SPState) (opt : String)
    (h : (withIdsOf st.G supportF monosF st.supportIds).length ≤ 1) :
    (∀ (iso2 : Occ → Occ → List (List (String × String)))
      (si2 : List Coord → List Coord → ℚ),
      findProteinSubgraphs iso2 si2 supportF monosF st opt =
        findProteinSubgraphs iso si supportF monosF st opt) ∧
    ∃ st', findProteinSubgraphs iso si supportF monosF st opt = Except.ok st' ∧
      st'.groups =
        [(withIdsOf st.G supportF monosF st.supportIds).map (fun (g : Occ) => g.gid)] ∧
      st'.structuralGroups = some st'.groups ∧
      st'.sequenceGroups = some st'.groups ∧
      st'.clusteringOption = some opt ∧
      ∀ grp ∈ st'.groups, grp.length ≤ 1 := by
  have hbranch : ∀ (iso2 : Occ → Occ → List (List (String × String)))
      (si2 : List Coord → List Coord → ℚ),
      findProteinSubgraphs iso2 si2 supportF monosF st opt =
        Except.ok { st with
          groups :=
            [(withIdsOf st.G supportF monosF st.supportIds).map (fun (g : Occ) => g.gid)]
          totalSupport := tsOf st.G supportF monosF st.totalSupport st.supportIds
          proteinSubgraphs :=
            (withIdsOf st.G supportF monosF st.supportIds).map (fun (g : Occ) => (g.gid, g))
          clusteringOption := some opt
          structuralGroups :=
            some [(withIdsOf st.G supportF monosF st.supportIds).map (fun (g : Occ) => g.gid)]
          sequenceGroups :=
            some [(withIdsOf st.G supportF monosF st.supportIds).map (fun (g : Occ) => g.gid)] } := by
    intro iso2 si2
    simp only [findProteinSubgraphs]
    rw [if_neg (Nat.not_lt.2 h)]
  refine ⟨fun iso2 si2 => (hbranch iso2 si2).trans (hbranch iso si).symm, _, hbranch iso si,
    rfl, rfl, rfl, rfl, ?_⟩
  intro grp hgrp
  rcases List.mem_cons.1 hgrp with rfl | hc
  · rw [List.length_map]
    exact h
  · cases hc

/-- Witness for C7 at the concrete one-occurrence run over host `"A"`: a
run with a different isomorphism enumerator and superimposer gives the very
same result, and the single group id 1 holds the one occurrence. -/
theorem findPS_singleton_witness :
    (findProteinSubgraphs (fun _ _ => []) (fun _ _ => 1) supAB monosAB
        (initSPState patP 0 0 ["A"] (fun _ => "s")) "structural" =
      findProteinSubgraphs isoAB siZero supAB monosAB
        (initSPState patP 0 0 ["A"] (fun _ => "s")) "structural") ∧
    ∃ st', findProteinSubgraphs isoAB siZero supAB monosAB
        (initSPState patP 0 0 ["A"] (fun _ => "s")) "structural" = Except.ok st' ∧
      st'.groups =
        [(withIdsOf (initSPState patP 0 0 ["A"] (fun _ => "s")).G supAB monosAB
          (initSPState patP 0 0 ["A"] (fun _ => "s")).supportIds).map (fun (g : Occ) => g.gid)] ∧
      st'.structuralGroups = some st'.groups ∧
      st'.sequenceGroups = some st'.groups ∧
      st'.clusteringOption = some "structural" ∧
      ∀ grp ∈ st'.groups, grp.length ≤ 1 :=
  ⟨(findPS_singleton isoAB siZero supAB monosAB
      (initSPState patP 0 0 ["A"] (fun _ => "s")) "structural" (by decide)).1
      (fun _ _ => []) (fun _ _ => 1),
   (findPS_singleton isoAB siZero supAB monosAB
      (initSPState patP 0 0 ["A"] (fun _ => "s")) "structural" (by decide)).2⟩

/-! ## C5: the groupings partition the occurrence ids -/

/-- Extraction returns the component containing `x` and a permutation
decomposition of the component list. -/
theorem extractComp_spec (x : Nat) :
    ∀ (cs : List (List Nat)) (c : List Nat) (rest : List (List Nat)),
      extractComp x cs = some (c, rest) → cs.Perm (c :: rest) ∧ x ∈ c := by
  intro cs
  induction cs with
  | nil => intro c rest h; cases h
  | cons d ds ih =>
    intro c rest h
    unfold extractComp at h
    by_cases hx : x ∈ d
    · rw [if_pos hx] at h
      injection h with h
      injection h with h1 h2
      subst h1
      subst h2
      exact ⟨List.Perm.refl _, hx⟩
    · rw [if_neg hx] at h
      cases he : extractComp x ds with
      | none => rw [he] at h; cases h
      | some p =>
        rw [he] at h
        rcases p with ⟨cb, ds2⟩
        injection h with h
        injection h with h1 h2
        subst h1
        subst h2
        rcases ih cb ds2 he with ⟨hperm, hmem⟩
        exact ⟨(hperm.cons d).trans (List.Perm.swap _ _ _), hmem⟩

/-- Merging the two endpoint components of an edge preserves the flattened
node multiset. -/
theorem addEdgeComps_flatten_perm (cs : List (List Nat)) (a b : Nat) :
    (addEdgeComps cs a b).flatten.Perm cs.flatten := by
  unfold addEdgeComps
  cases ha : extractComp a cs with
  | none => exact List.Perm.refl _
  | some pa =>
    rcases pa with ⟨ca, rest⟩
    rcases extractComp_spec a cs ca rest ha with ⟨hperm1, -⟩
    dsimp only
    by_cases hb : b ∈ ca
    · rw [if_pos hb]
    · rw [if_neg hb]
      cases hbe : extractComp b rest with
      | none => exact List.Perm.refl _
      | some pb =>
        rcases pb with ⟨cb, rest2⟩
        rcases extractComp_spec b rest cb rest2 hbe with ⟨hperm2, -⟩
        have h1 : cs.flatten.Perm ((ca :: rest).flatten) := hperm1.flatten
        have h3 : (ca ++ rest.flatten).Perm ((ca ++ cb) ++ rest2.flatten) := by
          have h4 := List.Perm.append_left ca hperm2.flatten
          rw [List.flatten_cons, ← List.append_assoc] at h4
          exact h4
        exact (h1.trans h3).symm

/-- The flattened singleton decomposition is the original list. -/
theorem flatten_map_singleton (l : List Nat) :
    (l.map (fun x => [x])).flatten = l := by
  induction l with
  | nil => rfl
  | cons x xs ih => simp [ih]

/-- The union-find components of the graph on `0 .. n-1` hold each node
exactly once in total. -/
theorem componentsOf_flatten_perm (n : Nat) (edges : List (Nat × Nat)) :
    (componentsOf n edges).flatten.Perm (List.range n) := by
  unfold componentsOf
  have key : ∀ (es : List (Nat × Nat)) (cs : List (List Nat)),
      (es.foldl (fun cs e => addEdgeComps cs e.1 e.2) cs).flatten.Perm cs.flatten := by
    intro es
    induction es with
    | nil => intro cs; exact List.Perm.refl _
    | cons e rest ih =>
      intro cs
      rw [List.foldl_cons]
      exact (ih (addEdgeComps cs e.1 e.2)).trans (addEdgeComps_flatten_perm cs e.1 e.2)
  refine (key edges _).trans ?_
  rw [flatten_map_singleton (List.range n)]

/-- The length-sorted components still hold each node exactly once. -/
theorem sortComps_flatten_perm (n : Nat) (edges : List (Nat × Nat)) :
    (sortComps (componentsOf n edges)).flatten.Perm (List.range n) :=
  ((sortLe_perm _ (componentsOf n edges)).flatten).trans (componentsOf_flatten_perm n edges)

/-- In a component list whose flattened count of `x` is one, exactly one
component contains `x`. -/
theorem countP_mem_eq_one (x : Nat) :
    ∀ (cs : List (List Nat)), cs.flatten.count x = 1 →
      cs.countP (fun c => decide (x ∈ c)) = 1 := by
  intro cs
  induction cs with
  | nil => intro h; cases h
  | cons c rest ih =>
    intro h
    rw [List.flatten_cons, List.count_append] at h
    rw [List.countP_cons]
    by_cases hx : x ∈ c
    · have hc1 : 0 < c.count x := List.count_pos_iff.2 hx
      have hr : rest.flatten.count x = 0 := by omega
      have hrz : rest.countP (fun c2 => decide (x ∈ c2)) = 0 := by
        rw [List.countP_eq_zero]
        intro c2 hc2
        rw [decide_eq_true_eq]
        intro hxc2
        have : 0 < rest.flatten.count x :=
          List.count_pos_iff.2 (List.mem_flatten.2 ⟨c2, hc2, hxc2⟩)
        omega
      rw [hrz, decide_eq_true hx]
      simp
    · have hcz : c.count x = 0 := List.count_eq_zero.2 hx
      rw [ih (by omega), decide_eq_false hx]
      simp

/-- Every node named in a component is one of the graph nodes `0 .. n-1`. -/
theorem comps_mem_lt (n : Nat) (edges : List (Nat × Nat)) :
    ∀ c ∈ sortComps (componentsOf n edges), ∀ x ∈ c, x < n := by
  intro c hc x hx
  have h1 : x ∈ (sortComps (componentsOf n edges)).flatten := List.mem_flatten.2 ⟨c, hc, hx⟩
  have h2 : x ∈ List.range n := (sortComps_flatten_perm n edges).mem_iff.1 h1
  exact List.mem_range.1 h2

/-- Every graph node `x < n` is in exactly one sorted component. -/
theorem sortComps_countP_one (n : Nat) (edges : List (Nat × Nat)) (x : Nat) (hx : x < n) :
    (sortComps (componentsOf n edges)).countP (fun c => decide (x ∈ c)) = 1 := by
  apply countP_mem_eq_one
  rw [(sortComps_flatten_perm n edges).count_eq]
  exact List.count_eq_one_of_mem (List.nodup_range n) (List.mem_range.2 hx)

/-- The sorted components are non-increasing in size. -/
theorem sortComps_sizes (cs : List (List Nat)) :
    (sortComps cs).Pairwise (fun c d => d.length ≤ c.length) := by
  have h := sortLe_pairwise (fun (c d : List Nat) => decide (d.length ≤ c.length))
    (fun a b c h1 h2 =>
      decide_eq_true (le_trans (of_decide_eq_true h2) (of_decide_eq_true h1)))
    (fun a b => by
      rcases Nat.le_total b.length a.length with h | h
      · exact Or.inl (decide_eq_true h)
      · exact Or.inr (decide_eq_true h)) cs
  exact h.imp of_decide_eq_true

/-- Assigning ids preserves the pool length. -/
theorem assignIds_length : ∀ (l : List Occ) (k : Nat), (assignIds k l).length = l.length := by
  intro l
  induction l with
  | nil => intro k; rfl
  | cons g gs ih =>
    intro k
    simp only [assignIds, List.length_cons, ih]

/-- The id assigned at pool position `i` is `(pdb id, k + i + 1)`. -/
theorem assignIds_gid : ∀ (l : List Occ) (k i : Nat), i < l.length →
    ((assignIds k l).getD i default).gid = ((l.getD i default).pdbId, k + i + 1) := by
  intro l
  induction l with
  | nil => intro k i h; cases h
  | cons g gs ih =>
    intro k i h
    cases i with
    | zero => rfl
    | succ i =>
      have h2 := ih (k + 1) i (by simpa using Nat.lt_of_succ_lt_succ h)
      show ((assignIds (k + 1) gs).getD i default).gid = _
      rw [h2]
      have harith : k + 1 + i + 1 = k + (i + 1) + 1 := by omega
      rw [harith]
      rfl

/-- Distinct pool positions carry distinct occurrence ids (the rank differs). -/
theorem assignIds_gid_inj (l : List Occ) (i j : Nat) (hi : i < l.length)
    (hj : j < l.length)
    (h : ((assignIds 0 l).getD i default).gid = ((assignIds 0 l).getD j default).gid) :
    i = j := by
  rw [assignIds_gid l 0 i hi, assignIds_gid l 0 j hj] at h
  injection h with h1 h2
  omega

/-- `countP` only depends on the predicate's values on the members. -/
theorem countP_congr_mem {α : Type} (l : List α) (p q : α → Bool)
    (h : ∀ a ∈ l, p a = q a) : l.countP p = l.countP q := by
  induction l with
  | nil => rfl
  | cons a t ih =>
    rw [List.countP_cons, List.countP_cons, h a (List.mem_cons_self a t),
      ih (fun b hb => h b (List.mem_cons_of_mem a hb))]

/-- The groupings built by `_gen_groups` from the sorted connected components
partition the occurrence ids and have non-increasing sizes, provided the ids
at distinct pool positions are distinct. -/
theorem genGroups_partition (graphs : List Occ) (edges : List (Nat × Nat))
    (hinj : ∀ i j, i < graphs.length → j < graphs.length →
      (graphs.getD i default).gid = (graphs.getD j default).gid → i = j) :
    (∀ id2 ∈ graphs.map (fun (g : Occ) => g.gid),
      (genGroups (sortComps (componentsOf graphs.length edges)) graphs).countP
        (fun grp => decide (id2 ∈ grp)) = 1) ∧
    (∀ grp ∈ genGroups (sortComps (componentsOf graphs.length edges)) graphs,
      ∀ id2 ∈ grp, id2 ∈ graphs.map (fun (g : Occ) => g.gid)) ∧
    (genGroups (sortComps (componentsOf graphs.length edges)) graphs).Pairwise
      (fun g1 g2 => g2.length ≤ g1.length) := by
  refine ⟨?_, ?_, ?_⟩
  · intro id2 hid2
    rcases List.mem_map.1 hid2 with ⟨g, hg, rfl⟩
    rcases List.mem_iff_getElem.1 hg with ⟨i, hi, rfl⟩
    have hgetD : graphs[i] = graphs.getD i default := (List.getD_eq_getElem graphs default hi).symm
    unfold genGroups
    rw [List.countP_map]
    have hcong : ∀ c ∈ sortComps (componentsOf graphs.length edges),
        ((fun grp => decide (graphs[i].gid ∈ grp)) ∘
          (fun c => c.map (fun idx => (graphs.getD idx default).gid))) c =
          (fun c => decide (i ∈ c)) c := by
      intro c hc
      simp only [Function.comp_apply, decide_eq_decide]
      constructor
      · intro hmem
        rcases List.mem_map.1 hmem with ⟨j, hj, hje⟩
        have hjlt : j < graphs.length := comps_mem_lt graphs.length edges c hc j hj
        have : j = i := hinj j i hjlt hi (by rw [hje, hgetD])
        exact this ▸ hj
      · intro hmem
        exact List.mem_map.2 ⟨i, hmem, by rw [hgetD]⟩
    rw [countP_congr_mem _ _ _ hcong]
    exact sortComps_countP_one graphs.length edges i hi
  · intro grp hgrp id2 hid2
    unfold genGroups at hgrp
    rcases List.mem_map.1 hgrp with ⟨c, hc, rfl⟩
    rcases List.mem_map.1 hid2 with ⟨idx, hidx, rfl⟩
    have hlt : idx < graphs.length := comps_mem_lt graphs.length edges c hc idx hidx
    refine List.mem_map.2 ⟨graphs.getD idx default, ?_, rfl⟩
    rw [List.getD_eq_getElem graphs default hlt]
    exact List.getElem_mem hlt
  · unfold genGroups
    rw [List.pairwise_map]
    exact (sortComps_sizes (componentsOf graphs.length edges)).imp
      (by
        intro c d h
        rw [List.length_map, List.length_map]
        exact h)

/-- Inversion of a successful `_do_clustering`: the two groupings are
`_gen_groups` of the sorted components of the two threshold graphs. -/
theorem doClustering_ok_inv (iso : Occ → Occ → List (List (String × String)))
    (si : List Coord → List Coord → ℚ) (supportF : String → EmapObj)
    (graphs : List Occ) (sg qg : List (List (String × Nat)))
    (h : doClustering iso si supportF graphs = Except.ok (sg, qg)) :
    ∃ seqE structE,
      clusterEdges iso si supportF graphs ((graphs.getD 0 default).nodes.length) =
        Except.ok (seqE, structE) ∧
      sg = genGroups (sortComps (componentsOf graphs.length structE)) graphs ∧
      qg = genGroups (sortComps (componentsOf graphs.length seqE)) graphs := by
  simp only [doClustering] at h
  cases hce : clusterEdges iso si supportF graphs ((graphs.getD 0 default).nodes.length) with
  | error e => rw [hce] at h; cases h
  | ok p =>
    rw [hce] at h
    rcases p with ⟨seqE, structE⟩
    injection h with h
    injection h with h1 h2
    exact ⟨seqE, structE, rfl, h1.symm, h2.symm⟩

/-- C5: after a successful `find_protein_subgraphs`, for each of the two
metrics the stored grouping partitions the occurrence ids — every stored
occurrence id lies in exactly one group, no group mentions an id that is not
a stored occurrence — and group sizes are non-increasing as the group id
increases. -/
theorem findPS_groups_partition (iso : Occ → Occ → List (List (String × String)))
    (si : List Coord → List Coord → ℚ) (supportF : String → EmapObj)
    (monosF : String → List (List (String × Nat))) (st : SPState) (opt : String)
    (st' : SPState)
    (h : findProteinSubgraphs iso si supportF monosF st opt = Except.ok st') :
    ∃ sg qg, st'.structuralGroups = some sg ∧ st'.sequenceGroups = some qg ∧
      ∀ gps ∈ [sg, qg],
        (∀ id2 ∈ st'.proteinSubgraphs.map (fun pr => pr.1),
          gps.countP (fun grp => decide (id2 ∈ grp)) = 1) ∧
        (∀ grp ∈ gps, ∀ id2 ∈ grp,
          id2 ∈ st'.proteinSubgraphs.map (fun pr => pr.1)) ∧
        gps.Pairwise (fun g1 g2 => g2.length ≤ g1.length) := by
  obtain ⟨hps, -, -, hbr⟩ := findPS_ok_inv iso si supportF monosF st opt st' h
  have hkeys : st'.proteinSubgraphs.map (fun pr => pr.1) =
      (withIdsOf st.G supportF monosF st.supportIds).map (fun (g : Occ) => g.gid) := by
    rw [hps, List.map_map]
    rfl
  have hinj : ∀ i j, i < (withIdsOf st.G supportF monosF st.supportIds).length →
      j < (withIdsOf st.G supportF monosF st.supportIds).length →
      ((withIdsOf st.G supportF monosF st.supportIds).getD i default).gid =
        ((withIdsOf st.G supportF monosF st.supportIds).getD j default).gid → i = j := by
    intro i j hi hj hg
    have hl : (withIdsOf st.G supportF monosF st.supportIds).length =
        (sortedPoolOf st.G supportF monosF st.supportIds).length := assignIds_length _ 0
    exact assignIds_gid_inj (sortedPoolOf st.G supportF monosF st.supportIds) i j
      (hl ▸ hi) (hl ▸ hj) hg
  rcases hbr with ⟨hn, sg, qg, hdc, hsg, hqg⟩ | ⟨hn, hgroups, hsg, hqg, -⟩
  · obtain ⟨seqE, structE, -, hsgE, hqgE⟩ :=
      doClustering_ok_inv iso si supportF (withIdsOf st.G supportF monosF st.supportIds)
        sg qg hdc
    refine ⟨sg, qg, hsg, hqg, ?_⟩
    intro gps hgps
    have hcase : gps = sg ∨ gps = qg := by
      rcases List.mem_cons.1 hgps with rfl | hgps2
      · exact Or.inl rfl
      · rcases List.mem_cons.1 hgps2 with rfl | hgps3
        · exact Or.inr rfl
        · cases hgps3
    rw [hkeys]
    rcases hcase with rfl | rfl
    · rw [hsgE]
      exact genGroups_partition _ structE hinj
    · rw [hqgE]
      exact genGroups_partition _ seqE hinj
  · refine ⟨st'.groups, st'.groups, hsg, hqg, ?_⟩
    intro gps hgps
    have hcase : gps = st'.groups := by
      rcases List.mem_cons.1 hgps with rfl | hgps2
      · rfl
      · rcases List.mem_cons.1 hgps2 with rfl | hgps3
        · rfl
        · cases hgps3
    subst hcase
    rw [hkeys, hgroups]
    refine ⟨?_, ?_, List.pairwise_singleton _ _⟩
    · intro id2 hid2
      rw [List.countP_cons, List.countP_nil, decide_eq_true hid2]
      simp
    · intro grp hgrp id2 hid2
      rcases List.mem_cons.1 hgrp with rfl | hc
      · exact hid2
      · cases hc

/-- Witness for C5 at the concrete two-host run with one occurrence each,
clustered into a single group per metric. -/
theorem findPS_groups_partition_witness :
    ∃ sg qg, stPair.structuralGroups = some sg ∧ stPair.sequenceGroups = some qg ∧
      ∀ gps ∈ [sg, qg],
        (∀ id2 ∈ stPair.proteinSubgraphs.map (fun pr => pr.1),
          gps.countP (fun grp => decide (id2 ∈ grp)) = 1) ∧
        (∀ grp ∈ gps, ∀ id2 ∈ grp,
          id2 ∈ stPair.proteinSubgraphs.map (fun pr => pr.1)) ∧
        gps.Pairwise (fun g1 g2 => g2.length ≤ g1.length) :=
  findPS_groups_partition isoAB siZero supAB monosAB
    (initSPState patE 0 0 ["A", "B"] (fun _ => "s")) "structural" stPair rfl

end PyEMap
